import Mathlib

/-!
Verification of the `go-csp` Content-Security-Policy codec and report handler.

The Go source is shallowly embedded: Go strings become `List Char`, the
`strings` package helpers used by the code (`Split`, `SplitN`, `Join`,
`TrimSpace`) are modelled character-exactly, and functions returning
`([]byte, error)` become `Except Str Str` (the only `return` statements in
the source build a `nil` error, hence every branch below is `Except.ok`).
-/

set_option maxHeartbeats 1000000
set_option maxRecDepth 100000

/-- Go strings are modelled as lists of characters. -/
abbrev Str := List Char

/-- The apostrophe character (used by the CSP keyword sources). -/
def quoteC : Char := Char.ofNat 39

/-- Whitespace in the sense of Go `unicode.IsSpace`, which is what
`strings.TrimSpace` trims: ASCII space class plus the Latin-1 and Unicode
space characters. -/
def isSpaceChar (c : Char) : Bool :=
  c = ' ' || c = '\t' || c = '\n' || c = Char.ofNat 11 || c = Char.ofNat 12 ||
  c = '\r' || c = Char.ofNat 133 || c = Char.ofNat 160 || c = Char.ofNat 5760 ||
  (8192 ≤ c.toNat && c.toNat ≤ 8202) || c = Char.ofNat 8232 ||
  c = Char.ofNat 8233 || c = Char.ofNat 8239 || c = Char.ofNat 8287 ||
  c = Char.ofNat 12288

/-- Go `strings.Split(s, sep)` for a one-character separator: the list of
substrings between occurrences of `sep`; splitting the empty string yields
one empty piece, exactly as in Go. -/
def splitOn (sep : Char) : Str → List Str
  | [] => [[]]
  | c :: rest =>
    match splitOn sep rest with
    | [] => [[]]
    | r :: rs => if c = sep then [] :: r :: rs else (c :: r) :: rs

/-- Go `strings.SplitN(s, sep, 2)` for a one-character separator: at most one
split, at the first occurrence of `sep`. -/
def splitN2 (sep : Char) : Str → List Str
  | [] => [[]]
  | c :: rest =>
    if c = sep then [[], rest]
    else
      match splitN2 sep rest with
      | [] => [[c]]
      | x :: xs => (c :: x) :: xs

/-- Go `strings.Join(xs, sep)`. -/
def joinSep (sep : Str) : List Str → Str
  | [] => []
  | [x] => x
  | x :: y :: xs => x ++ sep ++ joinSep sep (y :: xs)

/-- Left part of Go `strings.TrimSpace`. -/
def trimLeft (s : Str) : Str := s.dropWhile isSpaceChar

/-- Right part of Go `strings.TrimSpace`. -/
def trimRight (s : Str) : Str := (s.reverse.dropWhile isSpaceChar).reverse

/-- Go `strings.TrimSpace`. -/
def trimSpace (s : Str) : Str := trimRight (trimLeft s)

/-- Whether `pat` occurs at the start of `s`. -/
def leadsWith : Str → Str → Bool
  | [], _ => true
  | _ :: _, [] => false
  | a :: as, b :: bs => a = b && leadsWith as bs

/-- Go `strings.Contains(s, pat)`: `pat` occurs as a contiguous substring. -/
def occursIn (pat : Str) : Str → Bool
  | [] => leadsWith pat []
  | c :: rest => leadsWith pat (c :: rest) || occursIn pat rest

/- Directive names (the `const` block of `csp.go`). -/

/-- Wire name of the `ChildSrc` directive. -/
def childSrcName : Str := "child-src".data

/-- Wire name of the `ConnectSrc` directive. -/
def connectSrcName : Str := "connect-src".data

/-- Wire name of the `DefaultSrc` directive. -/
def defaultSrcName : Str := "default-src".data

/-- Wire name of the `FontSrc` directive. -/
def fontSrcName : Str := "font-src".data

/-- Wire name of the `FrameSrc` directive. -/
def frameSrcName : Str := "frame-src".data

/-- Wire name of the `ImgSrc` directive. -/
def imgSrcName : Str := "img-src".data

/-- Wire name of the `ManifestSrc` directive. -/
def manifestSrcName : Str := "manifest-src".data

/-- Wire name of the `MediaSrc` directive. -/
def mediaSrcName : Str := "media-src".data

/-- Wire name of the `ObjectSrc` directive. -/
def objectSrcName : Str := "object-src".data

/-- Wire name of the `ScriptSrc` directive. -/
def scriptSrcName : Str := "script-src".data

/-- Wire name of the `StyleSrc` directive. -/
def styleSrcName : Str := "style-src".data

/-- Wire name of the `WorkerSrc` directive. -/
def workerSrcName : Str := "worker-src".data

/-- Wire name of the scalar `ReportTo` directive. -/
def reportToName : Str := "report-to".data

/-- `SourceNone = "'none'"` from the source. -/
def sourceNone : Str := quoteC :: "none".data ++ [quoteC]

/-- `SourceSelf = "'self'"` from the source. -/
def sourceSelf : Str := quoteC :: "self".data ++ [quoteC]

/-- `SourceList` is a list of source tokens. -/
abbrev SourceList := List Str

/-- `SourceList.MarshalText`: join the tokens with single spaces (the `error`
result of the Go method is always `nil` and the caller discards it). -/
def SourceList.marshalStr (s : SourceList) : Str := joinSep " ".data s

/-- `SourceList.UnmarshalText`: split on single spaces. -/
def SourceList.unmarshalStr (text : Str) : SourceList := splitOn ' ' text

/-- The `CSP` configuration structure of `csp.go` (the wrapped `http.Handler`
field `h` carries no data relevant to the codec and is modelled in the
middleware section). -/
structure CSP where
  reportOnly : Bool := false
  childSrc : SourceList := []
  connectSrc : SourceList := []
  defaultSrc : SourceList := []
  fontSrc : SourceList := []
  frameSrc : SourceList := []
  imgSrc : SourceList := []
  manifestSrc : SourceList := []
  mediaSrc : SourceList := []
  objectSrc : SourceList := []
  scriptSrc : SourceList := []
  styleSrc : SourceList := []
  workerSrc : SourceList := []
  reportTo : Str := []
deriving DecidableEq

/-- The zero value `CSP{}` of Go. -/
def emptyCSP : CSP := {}

/-- `Default()` from the source: `'none'` default with `'self'` for
script, connect, img and style. -/
def defaultCSP : CSP :=
  { defaultSrc := [sourceNone]
    scriptSrc := [sourceSelf]
    connectSrc := [sourceSelf]
    imgSrc := [sourceSelf]
    styleSrc := [sourceSelf] }

/-- One `fmt.Sprintf("%s %s", name, txt)` entry of `CSP.MarshalText`. -/
def dirEntry (name val : Str) : Str := name ++ " ".data ++ val

/-- The `policies` slice built by `CSP.MarshalText`: one entry per non-empty
source list, in the order the source checks the fields, then the scalar
`report-to` when non-empty. -/
def CSP.policiesList (c : CSP) : List Str :=
  (if c.defaultSrc.length ≠ 0 then [dirEntry defaultSrcName c.defaultSrc.marshalStr] else []) ++
  (if c.childSrc.length ≠ 0 then [dirEntry childSrcName c.childSrc.marshalStr] else []) ++
  (if c.connectSrc.length ≠ 0 then [dirEntry connectSrcName c.connectSrc.marshalStr] else []) ++
  (if c.fontSrc.length ≠ 0 then [dirEntry fontSrcName c.fontSrc.marshalStr] else []) ++
  (if c.frameSrc.length ≠ 0 then [dirEntry frameSrcName c.frameSrc.marshalStr] else []) ++
  (if c.imgSrc.length ≠ 0 then [dirEntry imgSrcName c.imgSrc.marshalStr] else []) ++
  (if c.manifestSrc.length ≠ 0 then [dirEntry manifestSrcName c.manifestSrc.marshalStr] else []) ++
  (if c.mediaSrc.length ≠ 0 then [dirEntry mediaSrcName c.mediaSrc.marshalStr] else []) ++
  (if c.objectSrc.length ≠ 0 then [dirEntry objectSrcName c.objectSrc.marshalStr] else []) ++
  (if c.scriptSrc.length ≠ 0 then [dirEntry scriptSrcName c.scriptSrc.marshalStr] else []) ++
  (if c.styleSrc.length ≠ 0 then [dirEntry styleSrcName c.styleSrc.marshalStr] else []) ++
  (if c.workerSrc.length ≠ 0 then [dirEntry workerSrcName c.workerSrc.marshalStr] else []) ++
  (if c.reportTo ≠ [] then [dirEntry reportToName c.reportTo] else [])

/-- The text produced by `CSP.MarshalText`:
`strings.TrimSpace(strings.Join(policies, "; "))`. -/
def CSP.marshalStr (c : CSP) : Str := trimSpace (joinSep "; ".data c.policiesList)

/-- `CSP.MarshalText`: the Go method ends in `return ..., nil`, so the error
component is always `nil`, which the embedding renders as `Except.ok`. -/
def CSP.marshalText (c : CSP) : Except Str Str := Except.ok c.marshalStr

/-- The key/value extraction done for each `;`-segment in `CSP.UnmarshalText`:
`l := strings.SplitN(strings.TrimSpace(p), " ", 2)`, skip when
`p == "" || len(l) != 2`, else trim both parts. -/
def segKV (p : Str) : Option (Str × Str) :=
  if p = [] ∨ (splitN2 ' ' (trimSpace p)).length ≠ 2 then none
  else
    match splitN2 ' ' (trimSpace p) with
    | [k, v] => some (trimSpace k, trimSpace v)
    | _ => none

/-- The key of a `;`-segment, when the segment is well-formed. -/
def segKey (p : Str) : Option Str := (segKV p).map (fun kv => kv.1)

/-- The `switch k` statement of `CSP.UnmarshalText`, applied to one segment:
recognized source-list names re-unmarshal the named field from the value,
`report-to` assigns the value, anything else falls through. -/
def applyPolicy (c : CSP) (p : Str) : CSP :=
  match segKV p with
  | none => c
  | some (k, v) =>
    if k = childSrcName then { c with childSrc := SourceList.unmarshalStr v }
    else if k = connectSrcName then { c with connectSrc := SourceList.unmarshalStr v }
    else if k = defaultSrcName then { c with defaultSrc := SourceList.unmarshalStr v }
    else if k = fontSrcName then { c with fontSrc := SourceList.unmarshalStr v }
    else if k = frameSrcName then { c with frameSrc := SourceList.unmarshalStr v }
    else if k = imgSrcName then { c with imgSrc := SourceList.unmarshalStr v }
    else if k = manifestSrcName then { c with manifestSrc := SourceList.unmarshalStr v }
    else if k = mediaSrcName then { c with mediaSrc := SourceList.unmarshalStr v }
    else if k = objectSrcName then { c with objectSrc := SourceList.unmarshalStr v }
    else if k = scriptSrcName then { c with scriptSrc := SourceList.unmarshalStr v }
    else if k = styleSrcName then { c with styleSrc := SourceList.unmarshalStr v }
    else if k = workerSrcName then { c with workerSrc := SourceList.unmarshalStr v }
    else if k = reportToName then { c with reportTo := v }
    else c

/-- The state transformation of `CSP.UnmarshalText`: split the text on `;`
and process every segment in order against the receiver. -/
def CSP.unmarshalStr (c : CSP) (text : Str) : CSP :=
  (splitOn ';' text).foldl applyPolicy c

/-- `CSP.UnmarshalText`: the Go method always ends in `return nil`. -/
def CSP.unmarshalText (c : CSP) (text : Str) : Except Str CSP :=
  Except.ok (c.unmarshalStr text)

/-- The exact text the default policy must render to (claim C3), built with
explicit apostrophes around the keyword sources. -/
def defaultPolicyText : Str :=
  "default-src ".data ++ sourceNone ++ "; connect-src ".data ++ sourceSelf ++
  "; img-src ".data ++ sourceSelf ++ "; script-src ".data ++ sourceSelf ++
  "; style-src ".data ++ sourceSelf

/-- The thirteen directive slots of the policy structure. -/
inductive Dir where
  | childD | connectD | defaultD | fontD | frameD | imgD | manifestD
  | mediaD | objectD | scriptD | styleD | workerD | reportToD
deriving DecidableEq, Fintype

/-- The wire name of a directive slot. -/
def dirName : Dir → Str
  | .childD => childSrcName
  | .connectD => connectSrcName
  | .defaultD => defaultSrcName
  | .fontD => fontSrcName
  | .frameD => frameSrcName
  | .imgD => imgSrcName
  | .manifestD => manifestSrcName
  | .mediaD => mediaSrcName
  | .objectD => objectSrcName
  | .scriptD => scriptSrcName
  | .styleD => styleSrcName
  | .workerD => workerSrcName
  | .reportToD => reportToName

/-- The value held by a directive slot: a token list or the raw scalar. -/
inductive SlotVal where
  | tok (l : SourceList)
  | scalar (s : Str)
deriving DecidableEq

/-- Read one directive slot of a policy. -/
def dirGet (d : Dir) (c : CSP) : SlotVal :=
  match d with
  | .childD => .tok c.childSrc
  | .connectD => .tok c.connectSrc
  | .defaultD => .tok c.defaultSrc
  | .fontD => .tok c.fontSrc
  | .frameD => .tok c.frameSrc
  | .imgD => .tok c.imgSrc
  | .manifestD => .tok c.manifestSrc
  | .mediaD => .tok c.mediaSrc
  | .objectD => .tok c.objectSrc
  | .scriptD => .tok c.scriptSrc
  | .styleD => .tok c.styleSrc
  | .workerD => .tok c.workerSrc
  | .reportToD => .scalar c.reportTo

/-- The presence test of `CSP.MarshalText`: non-empty list, or non-empty
scalar for `report-to`. -/
def dirPresent (d : Dir) (c : CSP) : Prop :=
  match d with
  | .childD => c.childSrc.length ≠ 0
  | .connectD => c.connectSrc.length ≠ 0
  | .defaultD => c.defaultSrc.length ≠ 0
  | .fontD => c.fontSrc.length ≠ 0
  | .frameD => c.frameSrc.length ≠ 0
  | .imgD => c.imgSrc.length ≠ 0
  | .manifestD => c.manifestSrc.length ≠ 0
  | .mediaD => c.mediaSrc.length ≠ 0
  | .objectD => c.objectSrc.length ≠ 0
  | .scriptD => c.scriptSrc.length ≠ 0
  | .styleD => c.styleSrc.length ≠ 0
  | .workerD => c.workerSrc.length ≠ 0
  | .reportToD => c.reportTo ≠ []

instance (d : Dir) (c : CSP) : Decidable (dirPresent d c) := by
  cases d <;> (simp only [dirPresent]) <;> infer_instance

/-- The slot update a recognized segment performs: source lists are
re-unmarshalled from the value, the scalar is assigned the value. -/
def applyDir (d : Dir) (v : Str) (c : CSP) : CSP :=
  match d with
  | .childD => { c with childSrc := SourceList.unmarshalStr v }
  | .connectD => { c with connectSrc := SourceList.unmarshalStr v }
  | .defaultD => { c with defaultSrc := SourceList.unmarshalStr v }
  | .fontD => { c with fontSrc := SourceList.unmarshalStr v }
  | .frameD => { c with frameSrc := SourceList.unmarshalStr v }
  | .imgD => { c with imgSrc := SourceList.unmarshalStr v }
  | .manifestD => { c with manifestSrc := SourceList.unmarshalStr v }
  | .mediaD => { c with mediaSrc := SourceList.unmarshalStr v }
  | .objectD => { c with objectSrc := SourceList.unmarshalStr v }
  | .scriptD => { c with scriptSrc := SourceList.unmarshalStr v }
  | .styleD => { c with styleSrc := SourceList.unmarshalStr v }
  | .workerD => { c with workerSrc := SourceList.unmarshalStr v }
  | .reportToD => { c with reportTo := v }

/- Middleware (`CSP.ServeHTTP` / `CSP.Handler`). -/

/-- Header key `Content-Security-Policy`. -/
def headerPolicy : Str := "Content-Security-Policy".data

/-- Header key `Content-Security-Policy-Report-Only`. -/
def headerReportOnly : Str := "Content-Security-Policy-Report-Only".data

/-- Observable outcome of one `ServeHTTP` call of the middleware: which
header (if any) was set on the response, and whether the wrapped
downstream handler was invoked. -/
structure ServeOutcome where
  headerSet : Option (Str × Str)
  delegated : Bool
deriving DecidableEq

/-- `CSP.ServeHTTP`: pick the header key from the report-only flag, marshal
the policy, return early on a marshalling error, otherwise set the header
and delegate to the wrapped handler. -/
def CSP.serveOutcome (c : CSP) : ServeOutcome :=
  let key := if c.reportOnly then headerReportOnly else headerPolicy
  match c.marshalText with
  | .error _ => { headerSet := none, delegated := false }
  | .ok val => { headerSet := some (key, val), delegated := true }

/- Response-writer model for the default error hook (`net/http` semantics:
the first `Write` commits status 200 when no header has been written, and a
later `WriteHeader` on a committed response is ignored). -/

/-- The observable state of an `http.ResponseWriter`. -/
structure RWState where
  committed : Option Nat
  bodyOut : Str
deriving DecidableEq

/-- `w.Write(b)`: commits status 200 first when nothing is committed. -/
def rwWrite (w : RWState) (s : Str) : RWState :=
  match w.committed with
  | none => { committed := some 200, bodyOut := w.bodyOut ++ s }
  | some _ => { w with bodyOut := w.bodyOut ++ s }

/-- `w.WriteHeader(status)`: a no-op once a status is committed. -/
def rwWriteHeader (w : RWState) (status : Nat) : RWState :=
  match w.committed with
  | none => { w with committed := some status }
  | some _ => w

/-- `defaultErrorHandler.Error` from the report-handler source: it writes the
error text with `w.Write` and only then calls `w.WriteHeader(status)` (the
server-side log call has no observable response effect). -/
def defaultErrorWrite (w : RWState) (status : Nat) (errText : Str) : RWState :=
  rwWriteHeader (rwWrite w errText) status

/- JSON model: the fragment of Go `encoding/json` exercised by the report
handler, namely `json.Unmarshal` of a body into the `cspReport` envelope
struct. Strings are decoded with the standard escapes (including surrogate
pairs, with lone surrogates replaced by U+FFFD as Go does), numbers keep
their literal text, and struct field names match exactly or ASCII
case-insensitively, as Go field matching does. -/

/-- The double-quote character. -/
def quoteDbl : Char := Char.ofNat 34

/-- The backslash character. -/
def backslashC : Char := Char.ofNat 92

/-- The opening curly bracket. -/
def lcurly : Char := Char.ofNat 123

/-- The closing curly bracket. -/
def rcurly : Char := Char.ofNat 125

/-- The Unicode replacement character U+FFFD. -/
def replacementChar : Char := Char.ofNat 65533

/-- JSON structural whitespace. -/
def jsonWs (c : Char) : Bool := c = ' ' || c = '\t' || c = '\n' || c = '\r'

/-- Skip JSON whitespace. -/
def skipWs (s : Str) : Str := s.dropWhile jsonWs

/-- ASCII decimal digit test. -/
def isDigitC (c : Char) : Bool := '0' ≤ c && c ≤ '9'

/-- Value of a hexadecimal digit. -/
def hexVal (c : Char) : Option Nat :=
  if '0' ≤ c && c ≤ '9' then some (c.toNat - 48)
  else if 'a' ≤ c && c ≤ 'f' then some (c.toNat - 87)
  else if 'A' ≤ c && c ≤ 'F' then some (c.toNat - 55)
  else none

/-- Four hexadecimal digits, as used by `\uXXXX` escapes. -/
def parseHex4 : Str → Option (Nat × Str)
  | a :: b :: c :: d :: rest =>
    match hexVal a, hexVal b, hexVal c, hexVal d with
    | some x, some y, some z, some w => some (((x * 16 + y) * 16 + z) * 16 + w, rest)
    | _, _, _, _ => none
  | _ => none

/-- A parsed JSON value; numbers keep their literal text, objects keep their
key/value pairs in document order. -/
inductive Json where
  | nullJ
  | boolJ (b : Bool)
  | numJ (lit : Str)
  | strJ (s : Str)
  | arrJ (xs : List Json)
  | objJ (kvs : List (Str × Json))

/-- Leading run of decimal digits and the remainder. -/
def takeDigits (s : Str) : Str × Str := (s.takeWhile isDigitC, s.dropWhile isDigitC)

/-- Integer part of a JSON number (`0`, or a nonzero digit followed by
digits; leading zeros are rejected as in the JSON grammar). -/
def parseIntPart : Str → Option (Str × Str)
  | [] => none
  | c :: r =>
    if c = '0' then some ([c], r)
    else if isDigitC c then
      match takeDigits r with
      | (ds, rest) => some (c :: ds, rest)
    else none

/-- Optional fraction part `.digits` of a JSON number. -/
def parseFracPart : Str → Option (Str × Str)
  | [] => some ([], [])
  | c :: r =>
    if c = '.' then
      match takeDigits r with
      | ([], _) => none
      | (ds, rest) => some (c :: ds, rest)
    else some ([], c :: r)

/-- Digits with an optional leading sign, used after `e`/`E`. -/
def parseExpTail : Str → Option (Str × Str)
  | [] => none
  | c :: r =>
    if c = '+' || c = '-' then
      match takeDigits r with
      | ([], _) => none
      | (ds, rest) => some (c :: ds, rest)
    else
      match takeDigits (c :: r) with
      | ([], _) => none
      | (ds, rest) => some (ds, rest)

/-- Optional exponent part of a JSON number. -/
def parseExpPart : Str → Option (Str × Str)
  | [] => some ([], [])
  | c :: r =>
    if c = 'e' || c = 'E' then
      match parseExpTail r with
      | none => none
      | some (t, rest) => some (c :: t, rest)
    else some ([], c :: r)

/-- A JSON number literal and the remainder of the input. -/
def parseNumber (s : Str) : Option (Str × Str) :=
  let sgn : Str × Str :=
    match s with
    | c :: r => if c = '-' then ([c], r) else ([], s)
    | [] => ([], [])
  match parseIntPart sgn.2 with
  | none => none
  | some (ip, s2) =>
    match parseFracPart s2 with
    | none => none
    | some (fp, s3) =>
      match parseExpPart s3 with
      | none => none
      | some (ep, s4) => some (sgn.1 ++ ip ++ fp ++ ep, s4)

/-- Body of a JSON string after the opening quote: unescapes the standard
escape sequences, combines surrogate pairs and substitutes U+FFFD for lone
surrogates (as Go does), rejects raw control characters, and stops at the
closing quote. The fuel argument bounds the recursion and exceeds the input
length at every use. -/
def parseStrBody : Nat → Str → Option (Str × Str)
  | 0, _ => none
  | Nat.succ fuel, s =>
    match s with
    | [] => none
    | c :: rest =>
      if c = quoteDbl then some ([], rest)
      else if c = backslashC then
        match rest with
        | [] => none
        | e :: r2 =>
          if e = 'u' then
            match parseHex4 r2 with
            | none => none
            | some (n, r3) =>
              if 55296 ≤ n ∧ n ≤ 56319 then
                match r3 with
                | b1 :: u1 :: r4 =>
                  if b1 = backslashC ∧ u1 = 'u' then
                    match parseHex4 r4 with
                    | some (m, r5) =>
                      if 56320 ≤ m ∧ m ≤ 57343 then
                        match parseStrBody fuel r5 with
                        | some (acc, r6) =>
                          some (Char.ofNat (65536 + (n - 55296) * 1024 + (m - 56320)) :: acc, r6)
                        | none => none
                      else
                        match parseStrBody fuel r3 with
                        | some (acc, r6) => some (replacementChar :: acc, r6)
                        | none => none
                    | none =>
                      match parseStrBody fuel r3 with
                      | some (acc, r6) => some (replacementChar :: acc, r6)
                      | none => none
                  else
                    match parseStrBody fuel r3 with
                    | some (acc, r6) => some (replacementChar :: acc, r6)
                    | none => none
                | _ =>
                  match parseStrBody fuel r3 with
                  | some (acc, r6) => some (replacementChar :: acc, r6)
                  | none => none
              else if 56320 ≤ n ∧ n ≤ 57343 then
                match parseStrBody fuel r3 with
                | some (acc, r6) => some (replacementChar :: acc, r6)
                | none => none
              else
                match parseStrBody fuel r3 with
                | some (acc, r6) => some (Char.ofNat n :: acc, r6)
                | none => none
          else
            let esc : Option Char :=
              if e = quoteDbl then some quoteDbl
              else if e = backslashC then some backslashC
              else if e = '/' then some '/'
              else if e = 'b' then some (Char.ofNat 8)
              else if e = 'f' then some (Char.ofNat 12)
              else if e = 'n' then some '\n'
              else if e = 'r' then some '\r'
              else if e = 't' then some '\t'
              else none
            match esc with
            | none => none
            | some ec =>
              match parseStrBody fuel r2 with
              | some (acc, r) => some (ec :: acc, r)
              | none => none
      else if c.toNat < 32 then none
      else
        match parseStrBody fuel rest with
        | some (acc, r) => some (c :: acc, r)
        | none => none

mutual

/-- One JSON value at the head of the input (no leading whitespace). -/
def parseVal : Nat → Str → Option (Json × Str)
  | 0, _ => none
  | Nat.succ fuel, s =>
    match s with
    | [] => none
    | c :: rest =>
      if c = quoteDbl then
        match parseStrBody fuel rest with
        | some (str, r) => some (.strJ str, r)
        | none => none
      else if c = lcurly then
        match skipWs rest with
        | c2 :: r2 =>
          if c2 = rcurly then some (.objJ [], r2)
          else
            match parseMembers fuel (skipWs rest) [] with
            | some (kvs, r) => some (.objJ kvs, r)
            | none => none
        | [] => none
      else if c = '[' then
        match skipWs rest with
        | c2 :: r2 =>
          if c2 = ']' then some (.arrJ [], r2)
          else
            match parseElems fuel (skipWs rest) [] with
            | some (xs, r) => some (.arrJ xs, r)
            | none => none
        | [] => none
      else if c = 't' then
        if leadsWith "rue".data rest then some (.boolJ true, rest.drop 3) else none
      else if c = 'f' then
        if leadsWith "alse".data rest then some (.boolJ false, rest.drop 4) else none
      else if c = 'n' then
        if leadsWith "ull".data rest then some (.nullJ, rest.drop 3) else none
      else if c = '-' || isDigitC c then
        match parseNumber (c :: rest) with
        | some (lit, r) => some (.numJ lit, r)
        | none => none
      else none

/-- The members of a JSON object after the opening bracket (at least one). -/
def parseMembers : Nat → Str → List (Str × Json) → Option (List (Str × Json) × Str)
  | 0, _, _ => none
  | Nat.succ fuel, s, acc =>
    match skipWs s with
    | c :: rest =>
      if c = quoteDbl then
        match parseStrBody fuel rest with
        | some (key, r1) =>
          match skipWs r1 with
          | c2 :: r2 =>
            if c2 = ':' then
              match parseVal fuel (skipWs r2) with
              | some (v, r3) =>
                match skipWs r3 with
                | c3 :: r4 =>
                  if c3 = ',' then parseMembers fuel r4 (acc ++ [(key, v)])
                  else if c3 = rcurly then some (acc ++ [(key, v)], r4)
                  else none
                | [] => none
              | none => none
            else none
          | [] => none
        | none => none
      else none
    | [] => none

/-- The elements of a JSON array after the opening bracket (at least one). -/
def parseElems : Nat → Str → List Json → Option (List Json × Str)
  | 0, _, _ => none
  | Nat.succ fuel, s, acc =>
    match parseVal fuel (skipWs s) with
    | some (v, r1) =>
      match skipWs r1 with
      | c :: r2 =>
        if c = ',' then parseElems fuel r2 (acc ++ [v])
        else if c = ']' then some (acc ++ [v], r2)
        else none
      | [] => none
    | none => none

end

/-- Parse a complete JSON document, rejecting trailing input as
`json.Unmarshal` does. -/
def parseJson (s : Str) : Option Json :=
  match parseVal (s.length + 2) (skipWs s) with
  | some (j, rest) => if skipWs rest = [] then some j else none
  | none => none

/-- ASCII lower-casing, for Go's case-insensitive JSON field matching. -/
def asciiLower (c : Char) : Char :=
  if 'A' ≤ c && c ≤ 'Z' then Char.ofNat (c.toNat + 32) else c

/-- ASCII case fold equality of two keys. -/
def foldEq (a b : Str) : Bool := a.map asciiLower = b.map asciiLower

/-- Go JSON field matching: a document key matches a struct tag when the two
are equal, or when they are equal up to ASCII case. -/
def keyMatches (k tag : Str) : Bool := k = tag || foldEq k tag

/-- The `Report` struct of the report handler source, with zero values as
field defaults. -/
structure Report where
  documentURI : Str := []
  referrer : Str := []
  blockedURI : Str := []
  effectiveDirective : Str := []
  violatedDirective : Str := []
  originalPolicy : Str := []
  disposition : Str := []
  statusCode : Int := 0
deriving DecidableEq

/-- Digits of a decimal literal. -/
def digitsToNat : Str → Option Nat
  | [] => none
  | s => if s.all isDigitC then some (s.foldl (fun n c => n * 10 + (c.toNat - 48)) 0) else none

/-- `strconv`-style integer reading of a JSON number literal, as Go uses for
an `int`-typed field: only an optional sign and digits are accepted, so
fractional or exponent literals fail. -/
def parseIntLit : Str → Option Int
  | [] => none
  | c :: r =>
    if c = '-' then (digitsToNat r).map (fun n => -(n : Int))
    else (digitsToNat (c :: r)).map (fun n => (n : Int))

/-- Decode one JSON object member into the `Report` struct: the seven string
fields and the numeric `status` field match by tag (exact or ASCII
case-insensitive), `null` leaves a field untouched, a mismatched value type
is an unmarshalling error, unknown keys are ignored. -/
def setReportField (r : Report) (key : Str) (v : Json) : Except Str Report :=
  if keyMatches key "document-uri".data then
    match v with
    | .strJ s => .ok { r with documentURI := s }
    | .nullJ => .ok r
    | _ => .error "cannot unmarshal value into string field document-uri".data
  else if keyMatches key "referrer".data then
    match v with
    | .strJ s => .ok { r with referrer := s }
    | .nullJ => .ok r
    | _ => .error "cannot unmarshal value into string field referrer".data
  else if keyMatches key "blocked-uri".data then
    match v with
    | .strJ s => .ok { r with blockedURI := s }
    | .nullJ => .ok r
    | _ => .error "cannot unmarshal value into string field blocked-uri".data
  else if keyMatches key "effective-directive".data then
    match v with
    | .strJ s => .ok { r with effectiveDirective := s }
    | .nullJ => .ok r
    | _ => .error "cannot unmarshal value into string field effective-directive".data
  else if keyMatches key "violated-directive".data then
    match v with
    | .strJ s => .ok { r with violatedDirective := s }
    | .nullJ => .ok r
    | _ => .error "cannot unmarshal value into string field violated-directive".data
  else if keyMatches key "original-policy".data then
    match v with
    | .strJ s => .ok { r with originalPolicy := s }
    | .nullJ => .ok r
    | _ => .error "cannot unmarshal value into string field original-policy".data
  else if keyMatches key "disposition".data then
    match v with
    | .strJ s => .ok { r with disposition := s }
    | .nullJ => .ok r
    | _ => .error "cannot unmarshal value into string field disposition".data
  else if keyMatches key "status".data then
    match v with
    | .numJ lit =>
      match parseIntLit lit with
      | some n => .ok { r with statusCode := n }
      | none => .error "cannot unmarshal number into int field status".data
    | .nullJ => .ok r
    | _ => .error "cannot unmarshal value into int field status".data
  else .ok r

/-- Decode a JSON value into an existing `Report` (an object merges
member-wise, `null` is a no-op, anything else is a type error). -/
def decodeReportInto (r : Report) (j : Json) : Except Str Report :=
  match j with
  | .objJ kvs => kvs.foldlM (fun acc kv => setReportField acc kv.1 kv.2) r
  | .nullJ => .ok r
  | _ => .error "cannot unmarshal value into Report".data

/-- The envelope key of the `cspReport` wrapper struct. -/
def envKeyTag : Str := "csp-report".data

/-- Decode a JSON value into the `cspReport` envelope: the document must be
an object (or `null`); members whose key matches `csp-report` decode into
the inner `Report`, every other member is ignored. -/
def decodeEnvelope (j : Json) : Except Str Report :=
  match j with
  | .objJ kvs =>
    kvs.foldlM
      (fun acc kv => if keyMatches kv.1 envKeyTag then decodeReportInto acc kv.2 else .ok acc)
      ({} : Report)
  | .nullJ => .ok {}
  | _ => .error "cannot unmarshal value into cspReport".data

/-- `json.Unmarshal(body, &cspReport{})` followed by taking the inner
report: a parse failure or a shape mismatch is an error. -/
def jsonUnmarshalEnvelope (body : Str) : Except Str Report :=
  match parseJson body with
  | none => .error "invalid json".data
  | some j => decodeEnvelope j

/- The report ingestion handler (`RouteHandler`). -/

/-- `ReportContentType = "application/csp-report"`. -/
def reportContentTypeS : Str := "application/csp-report".data

/-- The message of the content-type error built by the handler. -/
def unsupportedTypeMsg : Str :=
  "Unsupported content type (expected application/csp-report)".data

/-- One inbound request, as the handler consumes it: the `Content-Type`
header value and the result of reading the body (reading can fail). -/
structure Request where
  contentType : Str
  body : Except Str Str

/-- The observable outcome of one handler invocation: every call of the
error hook with its status and error text, every report delivered to the
sink, whether the 200/empty response was written, and whether the body was
read. -/
structure HResult where
  errorCalls : List (Nat × Str)
  sinkCalls : List Report
  wroteOK : Bool
  bodyRead : Bool
deriving DecidableEq

/-- The closure returned by `RouteHandler`, with the report sink abstracted
as a function returning `none` on success: content-type gate (415), body
read (400 on failure), JSON envelope decode (400 on failure), sink dispatch
(500 on failure), then the 200 response. -/
def routeHandler (sink : Report → Option Str) (req : Request) : HResult :=
  if req.contentType ≠ reportContentTypeS then
    { errorCalls := [(415, unsupportedTypeMsg)], sinkCalls := [], wroteOK := false,
      bodyRead := false }
  else
    match req.body with
    | .error e =>
      { errorCalls := [(400, e)], sinkCalls := [], wroteOK := false, bodyRead := true }
    | .ok body =>
      match jsonUnmarshalEnvelope body with
      | .error e =>
        { errorCalls := [(400, e)], sinkCalls := [], wroteOK := false, bodyRead := true }
      | .ok rep =>
        match sink rep with
        | some e =>
          { errorCalls := [(500, e)], sinkCalls := [rep], wroteOK := false, bodyRead := true }
        | none =>
          { errorCalls := [], sinkCalls := [rep], wroteOK := true, bodyRead := true }

/- Cleanliness predicates used by the round-trip analysis. -/

/-- The first character, when there is one, is not whitespace. -/
def headNonspace (s : Str) : Bool :=
  match s.head? with
  | none => true
  | some c => !isSpaceChar c

/-- The last character, when there is one, is not whitespace. -/
def lastNonspace (s : Str) : Bool :=
  match s.getLast? with
  | none => true
  | some c => !isSpaceChar c

/-- A directive value that survives the segment trimming: non-empty, no
whitespace at either end, and no `;`. -/
def cleanVal (v : Str) : Bool :=
  !v.isEmpty && headNonspace v && lastNonspace v && v.all (fun c => c ≠ ';')

/-- A source token that round-trips: non-empty, and free of whitespace
characters and of `;`. -/
def cleanTok (t : Str) : Bool :=
  !t.isEmpty && t.all (fun c => !isSpaceChar c && c ≠ ';')

/-- Every token of the list is clean. -/
def cleanList (l : SourceList) : Bool := l.all cleanTok

/-- Every token of every source list of the policy is clean, and the scalar
`report-to` is empty or clean. -/
def cleanCSP (P : CSP) : Bool :=
  cleanList P.childSrc && cleanList P.connectSrc && cleanList P.defaultSrc &&
  cleanList P.fontSrc && cleanList P.frameSrc && cleanList P.imgSrc &&
  cleanList P.manifestSrc && cleanList P.mediaSrc && cleanList P.objectSrc &&
  cleanList P.scriptSrc && cleanList P.styleSrc && cleanList P.workerSrc &&
  (P.reportTo.isEmpty || cleanTok P.reportTo)

/-- The entries of `CSP.policiesList` in directive/value form, in the same
order as the marshaller emits them. -/
def entryList (P : CSP) : List (Dir × Str) :=
  (if P.defaultSrc.length ≠ 0 then [(Dir.defaultD, P.defaultSrc.marshalStr)] else []) ++
  (if P.childSrc.length ≠ 0 then [(Dir.childD, P.childSrc.marshalStr)] else []) ++
  (if P.connectSrc.length ≠ 0 then [(Dir.connectD, P.connectSrc.marshalStr)] else []) ++
  (if P.fontSrc.length ≠ 0 then [(Dir.fontD, P.fontSrc.marshalStr)] else []) ++
  (if P.frameSrc.length ≠ 0 then [(Dir.frameD, P.frameSrc.marshalStr)] else []) ++
  (if P.imgSrc.length ≠ 0 then [(Dir.imgD, P.imgSrc.marshalStr)] else []) ++
  (if P.manifestSrc.length ≠ 0 then [(Dir.manifestD, P.manifestSrc.marshalStr)] else []) ++
  (if P.mediaSrc.length ≠ 0 then [(Dir.mediaD, P.mediaSrc.marshalStr)] else []) ++
  (if P.objectSrc.length ≠ 0 then [(Dir.objectD, P.objectSrc.marshalStr)] else []) ++
  (if P.scriptSrc.length ≠ 0 then [(Dir.scriptD, P.scriptSrc.marshalStr)] else []) ++
  (if P.styleSrc.length ≠ 0 then [(Dir.styleD, P.styleSrc.marshalStr)] else []) ++
  (if P.workerSrc.length ≠ 0 then [(Dir.workerD, P.workerSrc.marshalStr)] else []) ++
  (if P.reportTo ≠ [] then [(Dir.reportToD, P.reportTo)] else [])

/-- The wire text of one directive/value entry. -/
def entryText (dv : Dir × Str) : Str := dirEntry (dirName dv.1) dv.2

/-- The value of the last entry for a given directive, if any (a later
segment for the same directive overwrites an earlier one). -/
def lastValFor (d : Dir) (l : List (Dir × Str)) : Option Str :=
  l.foldl (fun acc dv => if dv.1 = d then some dv.2 else acc) none

/-- What a recognized segment stores into its slot: source lists are split
on spaces, the scalar is stored as-is. -/
def decodedVal (d : Dir) (v : Str) : SlotVal :=
  match d with
  | .reportToD => .scalar v
  | _ => .tok (SourceList.unmarshalStr v)

/-- The example report envelope body of the happy-path test (claim C6),
with `\x7b`/`\x7d` the curly brackets of the JSON text. -/
def c6Body : Str :=
  "\x7b\"csp-report\":\x7b\"document-uri\":\"http://example.com/signup.html\",\"blocked-uri\":\"http://example.com/css/style.css\",\"violated-directive\":\"style-src cdn.example.com\",\"original-policy\":\"default-src ".data ++
  sourceNone ++
  "; style-src cdn.example.com\",\"disposition\":\"report\"\x7d\x7d".data

/-- The report the example envelope must decode to: exactly the five listed
fields, everything else zero. -/
def c6Report : Report :=
  { documentURI := "http://example.com/signup.html".data
    blockedURI := "http://example.com/css/style.css".data
    violatedDirective := "style-src cdn.example.com".data
    originalPolicy :=
      "default-src ".data ++ sourceNone ++ "; style-src cdn.example.com".data
    disposition := "report".data }

/-- C3: encoding the policy of the default factory yields exactly
`default-src 'none'; connect-src 'self'; img-src 'self'; script-src 'self';
style-src 'self'`, in the fixed declaration order with no trailing
separator, and a nil error. -/
theorem c3_default_policy_literal :
    defaultCSP.marshalText = Except.ok defaultPolicyText := by
  rfl

/- Basic facts about the segment machinery. -/

/-- The empty segment is skipped. -/
theorem segKV_nil : segKV [] = none := rfl

/-- The empty segment leaves the policy unchanged. -/
theorem applyPolicy_nil (c : CSP) : applyPolicy c [] = c := rfl

/-- Dropping a leading space does not change the trimmed prefix. -/
theorem trimLeft_cons_space (s : Str) : trimLeft (' ' :: s) = trimLeft s := by
  unfold trimLeft
  rw [List.dropWhile_cons_of_pos (by decide)]

/-- Dropping a leading space does not change the trimmed segment. -/
theorem trimSpace_cons_space (s : Str) : trimSpace (' ' :: s) = trimSpace s := by
  unfold trimSpace
  rw [trimLeft_cons_space]

/-- A leading space does not change the key/value split of a segment. -/
theorem segKV_cons_space (p : Str) : segKV (' ' :: p) = segKV p := by
  by_cases hp : p = []
  · subst hp; decide
  · unfold segKV
    rw [trimSpace_cons_space]
    simp [hp]

/-- A leading space does not change the effect of a segment. -/
theorem applyPolicy_cons_space (c : CSP) (p : Str) :
    applyPolicy c (' ' :: p) = applyPolicy c p := by
  unfold applyPolicy
  rw [segKV_cons_space]

/-- `SplitN` of a separator-free string yields that string alone. -/
theorem splitN2_no_sep (sep : Char) (s : Str) (h : ∀ c ∈ s, c ≠ sep) :
    splitN2 sep s = [s] := by
  induction s with
  | nil => rfl
  | cons a t ih =>
    have ha : a ≠ sep := h a (by simp)
    have ih' := ih (fun c hc => h c (by simp [hc]))
    simp [splitN2, ha, ih']

/-- `SplitN` cuts at the first separator. -/
theorem splitN2_entry (sep : Char) (n v : Str) (h : ∀ c ∈ n, c ≠ sep) :
    splitN2 sep (n ++ sep :: v) = [n, v] := by
  induction n with
  | nil => simp [splitN2]
  | cons a t ih =>
    have ha : a ≠ sep := h a (by simp)
    have ih' := ih (fun c hc => h c (by simp [hc]))
    simp [splitN2, ha, ih']

/-- Splitting always yields at least one piece. -/
theorem splitOn_ne_nil (sep : Char) (s : Str) : splitOn sep s ≠ [] := by
  induction s with
  | nil => simp [splitOn]
  | cons a t ih =>
    unfold splitOn
    split
    · simp
    · split <;> simp

/-- Splitting a string that starts with a non-separator prepends that
character to the first piece. -/
theorem splitOn_cons_ne (sep c : Char) (s : Str) (r : Str) (rs : List Str)
    (hc : c ≠ sep) (hs : splitOn sep s = r :: rs) :
    splitOn sep (c :: s) = (c :: r) :: rs := by
  unfold splitOn
  rw [hs]
  simp [hc]

/-- Splitting a separator-free string yields that string alone. -/
theorem splitOn_no_sep (sep : Char) (s : Str) (h : ∀ c ∈ s, c ≠ sep) :
    splitOn sep s = [s] := by
  induction s with
  | nil => rfl
  | cons a t ih =>
    have ha : a ≠ sep := h a (by simp)
    have ih' := ih (fun c hc => h c (by simp [hc]))
    exact splitOn_cons_ne sep a t t [] ha ih'

/-- Splitting distributes over a separator after a separator-free prefix. -/
theorem splitOn_append_sep (sep : Char) (x r : Str) (hx : ∀ c ∈ x, c ≠ sep) :
    splitOn sep (x ++ sep :: r) = x :: splitOn sep r := by
  induction x with
  | nil =>
    obtain ⟨r0, rs, h0⟩ : ∃ r0 rs, splitOn sep r = r0 :: rs := by
      cases h : splitOn sep r with
      | nil => exact absurd h (splitOn_ne_nil sep r)
      | cons a b => exact ⟨a, b, rfl⟩
    simp [splitOn, h0]
  | cons a t ih =>
    have ha : a ≠ sep := hx a (by simp)
    have ih' := ih (fun c hc => hx c (by simp [hc]))
    exact splitOn_cons_ne sep a (t ++ sep :: r) (t) (splitOn sep r) ha ih'

/- Join and trim facts. -/

/-- Unfolding of the join on a two-or-more element list. -/
theorem joinSep_cons_cons (sep x y : Str) (xs : List Str) :
    joinSep sep (x :: y :: xs) = x ++ sep ++ joinSep sep (y :: xs) := rfl

/-- A join starting from a non-empty entry is non-empty. -/
theorem joinSep_ne_nil_of (sep x : Str) (xs : List Str) (hx : x ≠ []) :
    joinSep sep (x :: xs) ≠ [] := by
  cases xs <;> simp [joinSep, hx]

/-- The first character of a join is the first character of its first
non-empty entry. -/
theorem joinSep_head? (sep x : Str) (xs : List Str) (hx : x ≠ []) :
    (joinSep sep (x :: xs)).head? = x.head? := by
  cases xs with
  | nil => rfl
  | cons y ys =>
    rw [joinSep_cons_cons, List.append_assoc, List.head?_append]
    cases x with
    | nil => exact absurd rfl hx
    | cons a t => rfl

/-- A join of entries that end in non-whitespace ends in non-whitespace. -/
theorem joinSep_lastNonspace (sep : Str) (es : List Str)
    (h : ∀ e ∈ es, e ≠ [] ∧ lastNonspace e = true) :
    lastNonspace (joinSep sep es) = true := by
  induction es with
  | nil => rfl
  | cons x xs ih =>
    cases xs with
    | nil => exact (h x (by simp)).2
    | cons y ys =>
      have hy : joinSep sep (y :: ys) ≠ [] :=
        joinSep_ne_nil_of sep y ys (h y (by simp)).1
      have hlast : (joinSep sep (x :: y :: ys)).getLast? =
          (joinSep sep (y :: ys)).getLast? := by
        rw [joinSep_cons_cons]
        exact List.getLast?_append_of_ne_nil _ hy
      have ih' := ih (fun e he => h e (List.mem_cons_of_mem x he))
      unfold lastNonspace at ih' ⊢
      rw [hlast]
      exact ih'

/-- A join of entries that start in non-whitespace starts in
non-whitespace. -/
theorem joinSep_headNonspace (sep x : Str) (xs : List Str) (hx : x ≠ [])
    (hh : headNonspace x = true) :
    headNonspace (joinSep sep (x :: xs)) = true := by
  unfold headNonspace at hh ⊢
  rw [joinSep_head? sep x xs hx]
  exact hh

/-- Trimming does nothing on the left of a string that starts in
non-whitespace. -/
theorem trimLeft_eq_self (s : Str) (h : headNonspace s = true) :
    trimLeft s = s := by
  cases s with
  | nil => rfl
  | cons a t =>
    have ha : isSpaceChar a = false := by
      simpa [headNonspace] using h
    unfold trimLeft
    rw [List.dropWhile_cons_of_neg (by simp [ha])]

/-- Trimming does nothing on the right of a string that ends in
non-whitespace. -/
theorem trimRight_eq_self (s : Str) (h : lastNonspace s = true) :
    trimRight s = s := by
  cases hr : s.reverse with
  | nil =>
    have : s = [] := by simpa using congrArg List.reverse hr
    subst this; rfl
  | cons a t =>
    have hga : s.getLast? = some a := by
      rw [← List.head?_reverse, hr]; rfl
    have ha : isSpaceChar a = false := by
      simpa [lastNonspace, hga] using h
    unfold trimRight
    rw [hr, List.dropWhile_cons_of_neg (by simp [ha]), ← hr,
      List.reverse_reverse]

/-- Trimming does nothing to a string with non-whitespace at both ends. -/
theorem trimSpace_eq_self (s : Str) (hh : headNonspace s = true)
    (hl : lastNonspace s = true) : trimSpace s = s := by
  unfold trimSpace
  rw [trimLeft_eq_self s hh, trimRight_eq_self s hl]

/-- Right trim swallows a fully-whitespace suffix. -/
theorem trimRight_append_all_space (x v : Str)
    (h : ∀ c ∈ v, isSpaceChar c = true) :
    trimRight (x ++ v) = trimRight x := by
  unfold trimRight
  rw [List.reverse_append, List.dropWhile_append_of_pos]
  intro a ha
  exact h a (by simpa using ha)

/-- `trimRight` is empty exactly when everything is whitespace. -/
theorem trimRight_eq_nil_iff (v : Str) :
    trimRight v = [] ↔ ∀ c ∈ v, isSpaceChar c = true := by
  unfold trimRight
  rw [List.reverse_eq_nil_iff, List.dropWhile_eq_nil_iff]
  constructor
  · intro h c hc; exact h c (by simpa using hc)
  · intro h c hc; exact h c (by simpa using hc)

/-- Right trim stops inside a suffix that is not all whitespace. -/
theorem trimRight_append_of_ne (x v : Str) (h : trimRight v ≠ []) :
    trimRight (x ++ v) = x ++ trimRight v := by
  have hne : (v.reverse.dropWhile isSpaceChar).isEmpty = false := by
    cases hdw : v.reverse.dropWhile isSpaceChar with
    | nil => exact absurd (by unfold trimRight; rw [hdw]; rfl) h
    | cons a t => rfl
  unfold trimRight
  rw [List.reverse_append, List.dropWhile_append, hne]
  simp

/- Key/value extraction on marshalled entries. -/

/-- An entry is the name, a space, and the value. -/
theorem dirEntry_eq (N v : Str) : dirEntry N v = N ++ ' ' :: v := by
  unfold dirEntry
  rw [List.append_assoc]
  rfl

/-- A non-whitespace head survives an append on the right. -/
theorem headNonspace_append (N r : Str) (hN : N ≠ [])
    (hh : headNonspace N = true) : headNonspace (N ++ r) = true := by
  cases N with
  | nil => exact absurd rfl hN
  | cons a t => simpa [headNonspace] using hh

/-- An entry with a clean-ended value ends in non-whitespace. -/
theorem lastNonspace_entry (N v : Str) (hv1 : v ≠ [])
    (hvl : lastNonspace v = true) : lastNonspace (N ++ ' ' :: v) = true := by
  have h1 : (N ++ ' ' :: v).getLast? = (' ' :: v).getLast? :=
    List.getLast?_append_of_ne_nil _ (by simp)
  have h2 : (' ' :: v).getLast? = v.getLast? :=
    List.getLast?_append_of_ne_nil [' '] hv1
  unfold lastNonspace at hvl ⊢
  rw [h1, h2]
  exact hvl

/-- On a marshalled entry whose value is clean, the segment split recovers
exactly the directive name and the value. -/
theorem segKV_entry (N v : Str) (hN : N ≠ []) (hh : headNonspace N = true)
    (hl : lastNonspace N = true) (hsp : ∀ c ∈ N, c ≠ ' ')
    (hv : cleanVal v = true) : segKV (dirEntry N v) = some (N, v) := by
  have hv' := hv
  unfold cleanVal at hv'
  simp only [Bool.and_eq_true, Bool.not_eq_true'] at hv'
  obtain ⟨⟨⟨hv1, hvh⟩, hvl⟩, _⟩ := hv'
  have hv1' : v ≠ [] := by
    cases v with
    | nil => simp at hv1
    | cons a t => simp
  rw [dirEntry_eq]
  have htrim : trimSpace (N ++ ' ' :: v) = N ++ ' ' :: v :=
    trimSpace_eq_self _ (headNonspace_append N _ hN hh)
      (lastNonspace_entry N v hv1' hvl)
  have hsplit : splitN2 ' ' (N ++ ' ' :: v) = [N, v] := splitN2_entry ' ' N v hsp
  unfold segKV
  rw [htrim, hsplit, if_neg (by simp)]
  show some (trimSpace N, trimSpace v) = some (N, v)
  rw [trimSpace_eq_self N hh hl, trimSpace_eq_self v hvh hvl]

/-- On a marshalled entry with an arbitrary value, the segment is either
skipped or keyed by the directive name. -/
theorem segKV_entry_or (N v : Str) (hN : N ≠ []) (hh : headNonspace N = true)
    (hl : lastNonspace N = true) (hsp : ∀ c ∈ N, c ≠ ' ') :
    segKV (dirEntry N v) = none ∨ ∃ w, segKV (dirEntry N v) = some (N, w) := by
  rw [dirEntry_eq]
  have hLeft : trimLeft (N ++ ' ' :: v) = N ++ ' ' :: v :=
    trimLeft_eq_self _ (headNonspace_append N _ hN hh)
  by_cases hall : ∀ c ∈ v, isSpaceChar c = true
  · left
    have hR : trimRight (N ++ ' ' :: v) = N := by
      have h1 : trimRight (N ++ ' ' :: v) = trimRight N := by
        apply trimRight_append_all_space
        intro c hc
        rcases List.mem_cons.1 hc with h1 | h2
        · subst h1; decide
        · exact hall c h2
      rw [h1, trimRight_eq_self N hl]
    have htr : trimSpace (N ++ ' ' :: v) = N := by
      unfold trimSpace; rw [hLeft]; exact hR
    have hsplit : splitN2 ' ' N = [N] := splitN2_no_sep ' ' N hsp
    unfold segKV
    rw [htr, hsplit]
    simp
  · right
    have hvr : trimRight v ≠ [] := by
      rw [Ne, trimRight_eq_nil_iff]; exact hall
    have hw : trimRight (' ' :: v) = ' ' :: trimRight v := by
      have h0 : (' ' :: v) = [' '] ++ v := rfl
      rw [h0, trimRight_append_of_ne [' '] v hvr]
      rfl
    have hR : trimRight (N ++ ' ' :: v) = N ++ ' ' :: trimRight v := by
      rw [trimRight_append_of_ne N (' ' :: v) (by rw [hw]; simp), hw]
    have htr : trimSpace (N ++ ' ' :: v) = N ++ ' ' :: trimRight v := by
      unfold trimSpace; rw [hLeft]; exact hR
    refine ⟨trimSpace (trimRight v), ?_⟩
    unfold segKV
    rw [htr, splitN2_entry ' ' N (trimRight v) hsp, if_neg (by simp)]
    show some (trimSpace N, trimSpace (trimRight v)) = some (N, trimSpace (trimRight v))
    rw [trimSpace_eq_self N hh hl]

/- Frame lemmas: a segment not keyed by a directive leaves that slot
untouched. -/

/-- A segment whose key is not `childSrcName` leaves `childSrc` unchanged. -/
theorem applyPolicy_frame_child (c : CSP) (p : Str)
    (h : segKey p ≠ some childSrcName) :
    (applyPolicy c p).childSrc = c.childSrc := by
  cases hkv : segKV p with
  | none => unfold applyPolicy; rw [hkv]
  | some kv =>
    obtain ⟨k, v⟩ := kv
    have hk : k ≠ childSrcName := by
      intro he; exact h (by simp [segKey, hkv, he])
    unfold applyPolicy
    simp only [hkv]
    simp only [apply_ite CSP.childSrc, ite_self]
    rw [if_neg hk]

/-- A segment whose key is not `connectSrcName` leaves `connectSrc` unchanged. -/
theorem applyPolicy_frame_connect (c : CSP) (p : Str)
    (h : segKey p ≠ some connectSrcName) :
    (applyPolicy c p).connectSrc = c.connectSrc := by
  cases hkv : segKV p with
  | none => unfold applyPolicy; rw [hkv]
  | some kv =>
    obtain ⟨k, v⟩ := kv
    have hk : k ≠ connectSrcName := by
      intro he; exact h (by simp [segKey, hkv, he])
    unfold applyPolicy
    simp only [hkv]
    simp only [apply_ite CSP.connectSrc, ite_self]
    rw [if_neg hk]
    all_goals simp only [ite_self]

/-- A segment whose key is not `defaultSrcName` leaves `defaultSrc` unchanged. -/
theorem applyPolicy_frame_default (c : CSP) (p : Str)
    (h : segKey p ≠ some defaultSrcName) :
    (applyPolicy c p).defaultSrc = c.defaultSrc := by
  cases hkv : segKV p with
  | none => unfold applyPolicy; rw [hkv]
  | some kv =>
    obtain ⟨k, v⟩ := kv
    have hk : k ≠ defaultSrcName := by
      intro he; exact h (by simp [segKey, hkv, he])
    unfold applyPolicy
    simp only [hkv]
    simp only [apply_ite CSP.defaultSrc, ite_self]
    rw [if_neg hk]
    all_goals simp only [ite_self]

/-- A segment whose key is not `fontSrcName` leaves `fontSrc` unchanged. -/
theorem applyPolicy_frame_font (c : CSP) (p : Str)
    (h : segKey p ≠ some fontSrcName) :
    (applyPolicy c p).fontSrc = c.fontSrc := by
  cases hkv : segKV p with
  | none => unfold applyPolicy; rw [hkv]
  | some kv =>
    obtain ⟨k, v⟩ := kv
    have hk : k ≠ fontSrcName := by
      intro he; exact h (by simp [segKey, hkv, he])
    unfold applyPolicy
    simp only [hkv]
    simp only [apply_ite CSP.fontSrc, ite_self]
    rw [if_neg hk]
    all_goals simp only [ite_self]

/-- A segment whose key is not `frameSrcName` leaves `frameSrc` unchanged. -/
theorem applyPolicy_frame_frame (c : CSP) (p : Str)
    (h : segKey p ≠ some frameSrcName) :
    (applyPolicy c p).frameSrc = c.frameSrc := by
  cases hkv : segKV p with
  | none => unfold applyPolicy; rw [hkv]
  | some kv =>
    obtain ⟨k, v⟩ := kv
    have hk : k ≠ frameSrcName := by
      intro he; exact h (by simp [segKey, hkv, he])
    unfold applyPolicy
    simp only [hkv]
    simp only [apply_ite CSP.frameSrc, ite_self]
    rw [if_neg hk]
    all_goals simp only [ite_self]

/-- A segment whose key is not `imgSrcName` leaves `imgSrc` unchanged. -/
theorem applyPolicy_frame_img (c : CSP) (p : Str)
    (h : segKey p ≠ some imgSrcName) :
    (applyPolicy c p).imgSrc = c.imgSrc := by
  cases hkv : segKV p with
  | none => unfold applyPolicy; rw [hkv]
  | some kv =>
    obtain ⟨k, v⟩ := kv
    have hk : k ≠ imgSrcName := by
      intro he; exact h (by simp [segKey, hkv, he])
    unfold applyPolicy
    simp only [hkv]
    simp only [apply_ite CSP.imgSrc, ite_self]
    rw [if_neg hk]
    all_goals simp only [ite_self]

/-- A segment whose key is not `manifestSrcName` leaves `manifestSrc` unchanged. -/
theorem applyPolicy_frame_manifest (c : CSP) (p : Str)
    (h : segKey p ≠ some manifestSrcName) :
    (applyPolicy c p).manifestSrc = c.manifestSrc := by
  cases hkv : segKV p with
  | none => unfold applyPolicy; rw [hkv]
  | some kv =>
    obtain ⟨k, v⟩ := kv
    have hk : k ≠ manifestSrcName := by
      intro he; exact h (by simp [segKey, hkv, he])
    unfold applyPolicy
    simp only [hkv]
    simp only [apply_ite CSP.manifestSrc, ite_self]
    rw [if_neg hk]
    all_goals simp only [ite_self]

/-- A segment whose key is not `mediaSrcName` leaves `mediaSrc` unchanged. -/
theorem applyPolicy_frame_media (c : CSP) (p : Str)
    (h : segKey p ≠ some mediaSrcName) :
    (applyPolicy c p).mediaSrc = c.mediaSrc := by
  cases hkv : segKV p with
  | none => unfold applyPolicy; rw [hkv]
  | some kv =>
    obtain ⟨k, v⟩ := kv
    have hk : k ≠ mediaSrcName := by
      intro he; exact h (by simp [segKey, hkv, he])
    unfold applyPolicy
    simp only [hkv]
    simp only [apply_ite CSP.mediaSrc, ite_self]
    rw [if_neg hk]
    all_goals simp only [ite_self]

/-- A segment whose key is not `objectSrcName` leaves `objectSrc` unchanged. -/
theorem applyPolicy_frame_object (c : CSP) (p : Str)
    (h : segKey p ≠ some objectSrcName) :
    (applyPolicy c p).objectSrc = c.objectSrc := by
  cases hkv : segKV p with
  | none => unfold applyPolicy; rw [hkv]
  | some kv =>
    obtain ⟨k, v⟩ := kv
    have hk : k ≠ objectSrcName := by
      intro he; exact h (by simp [segKey, hkv, he])
    unfold applyPolicy
    simp only [hkv]
    simp only [apply_ite CSP.objectSrc, ite_self]
    rw [if_neg hk]
    all_goals simp only [ite_self]

/-- A segment whose key is not `scriptSrcName` leaves `scriptSrc` unchanged. -/
theorem applyPolicy_frame_script (c : CSP) (p : Str)
    (h : segKey p ≠ some scriptSrcName) :
    (applyPolicy c p).scriptSrc = c.scriptSrc := by
  cases hkv : segKV p with
  | none => unfold applyPolicy; rw [hkv]
  | some kv =>
    obtain ⟨k, v⟩ := kv
    have hk : k ≠ scriptSrcName := by
      intro he; exact h (by simp [segKey, hkv, he])
    unfold applyPolicy
    simp only [hkv]
    simp only [apply_ite CSP.scriptSrc, ite_self]
    rw [if_neg hk]
    all_goals simp only [ite_self]

/-- A segment whose key is not `styleSrcName` leaves `styleSrc` unchanged. -/
theorem applyPolicy_frame_style (c : CSP) (p : Str)
    (h : segKey p ≠ some styleSrcName) :
    (applyPolicy c p).styleSrc = c.styleSrc := by
  cases hkv : segKV p with
  | none => unfold applyPolicy; rw [hkv]
  | some kv =>
    obtain ⟨k, v⟩ := kv
    have hk : k ≠ styleSrcName := by
      intro he; exact h (by simp [segKey, hkv, he])
    unfold applyPolicy
    simp only [hkv]
    simp only [apply_ite CSP.styleSrc, ite_self]
    rw [if_neg hk]
    all_goals simp only [ite_self]

/-- A segment whose key is not `workerSrcName` leaves `workerSrc` unchanged. -/
theorem applyPolicy_frame_worker (c : CSP) (p : Str)
    (h : segKey p ≠ some workerSrcName) :
    (applyPolicy c p).workerSrc = c.workerSrc := by
  cases hkv : segKV p with
  | none => unfold applyPolicy; rw [hkv]
  | some kv =>
    obtain ⟨k, v⟩ := kv
    have hk : k ≠ workerSrcName := by
      intro he; exact h (by simp [segKey, hkv, he])
    unfold applyPolicy
    simp only [hkv]
    simp only [apply_ite CSP.workerSrc, ite_self]
    rw [if_neg hk]
    all_goals simp only [ite_self]

/-- A segment whose key is not `reportToName` leaves `reportTo` unchanged. -/
theorem applyPolicy_frame_reportTo (c : CSP) (p : Str)
    (h : segKey p ≠ some reportToName) :
    (applyPolicy c p).reportTo = c.reportTo := by
  cases hkv : segKV p with
  | none => unfold applyPolicy; rw [hkv]
  | some kv =>
    obtain ⟨k, v⟩ := kv
    have hk : k ≠ reportToName := by
      intro he; exact h (by simp [segKey, hkv, he])
    unfold applyPolicy
    simp only [hkv]
    simp only [apply_ite CSP.reportTo, ite_self]
    rw [if_neg hk]
    all_goals simp only [ite_self]

/-- No segment ever changes the report-only flag. -/
theorem applyPolicy_reportOnly (c : CSP) (p : Str) :
    (applyPolicy c p).reportOnly = c.reportOnly := by
  cases hkv : segKV p with
  | none => unfold applyPolicy; rw [hkv]
  | some kv =>
    obtain ⟨k, v⟩ := kv
    unfold applyPolicy
    simp only [hkv]
    simp only [apply_ite CSP.reportOnly, ite_self]

/- Set lemmas: a recognized segment stores its value into its slot. -/

/-- A segment keyed `childSrcName` re-unmarshals `childSrc` from its value. -/
theorem applyPolicy_set_child (c : CSP) (p v : Str)
    (h : segKV p = some (childSrcName, v)) :
    applyPolicy c p = { c with childSrc := SourceList.unmarshalStr v } := by
  unfold applyPolicy
  simp only [h]
  rw [if_pos (by trivial)]

/-- A segment keyed `connectSrcName` re-unmarshals `connectSrc` from its value. -/
theorem applyPolicy_set_connect (c : CSP) (p v : Str)
    (h : segKV p = some (connectSrcName, v)) :
    applyPolicy c p = { c with connectSrc := SourceList.unmarshalStr v } := by
  unfold applyPolicy
  simp only [h]
  rw [if_neg (by decide), if_pos (by trivial)]

/-- A segment keyed `defaultSrcName` re-unmarshals `defaultSrc` from its value. -/
theorem applyPolicy_set_default (c : CSP) (p v : Str)
    (h : segKV p = some (defaultSrcName, v)) :
    applyPolicy c p = { c with defaultSrc := SourceList.unmarshalStr v } := by
  unfold applyPolicy
  simp only [h]
  rw [if_neg (by decide), if_neg (by decide), if_pos (by trivial)]

/-- A segment keyed `fontSrcName` re-unmarshals `fontSrc` from its value. -/
theorem applyPolicy_set_font (c : CSP) (p v : Str)
    (h : segKV p = some (fontSrcName, v)) :
    applyPolicy c p = { c with fontSrc := SourceList.unmarshalStr v } := by
  unfold applyPolicy
  simp only [h]
  rw [if_neg (by decide), if_neg (by decide), if_neg (by decide), if_pos (by trivial)]

/-- A segment keyed `frameSrcName` re-unmarshals `frameSrc` from its value. -/
theorem applyPolicy_set_frame (c : CSP) (p v : Str)
    (h : segKV p = some (frameSrcName, v)) :
    applyPolicy c p = { c with frameSrc := SourceList.unmarshalStr v } := by
  unfold applyPolicy
  simp only [h]
  rw [if_neg (by decide), if_neg (by decide), if_neg (by decide), if_neg (by decide), if_pos (by trivial)]

/-- A segment keyed `imgSrcName` re-unmarshals `imgSrc` from its value. -/
theorem applyPolicy_set_img (c : CSP) (p v : Str)
    (h : segKV p = some (imgSrcName, v)) :
    applyPolicy c p = { c with imgSrc := SourceList.unmarshalStr v } := by
  unfold applyPolicy
  simp only [h]
  rw [if_neg (by decide), if_neg (by decide), if_neg (by decide), if_neg (by decide), if_neg (by decide), if_pos (by trivial)]

/-- A segment keyed `manifestSrcName` re-unmarshals `manifestSrc` from its value. -/
theorem applyPolicy_set_manifest (c : CSP) (p v : Str)
    (h : segKV p = some (manifestSrcName, v)) :
    applyPolicy c p = { c with manifestSrc := SourceList.unmarshalStr v } := by
  unfold applyPolicy
  simp only [h]
  rw [if_neg (by decide), if_neg (by decide), if_neg (by decide), if_neg (by decide), if_neg (by decide), if_neg (by decide), if_pos (by trivial)]

/-- A segment keyed `mediaSrcName` re-unmarshals `mediaSrc` from its value. -/
theorem applyPolicy_set_media (c : CSP) (p v : Str)
    (h : segKV p = some (mediaSrcName, v)) :
    applyPolicy c p = { c with mediaSrc := SourceList.unmarshalStr v } := by
  unfold applyPolicy
  simp only [h]
  rw [if_neg (by decide), if_neg (by decide), if_neg (by decide), if_neg (by decide), if_neg (by decide), if_neg (by decide), if_neg (by decide), if_pos (by trivial)]

/-- A segment keyed `objectSrcName` re-unmarshals `objectSrc` from its value. -/
theorem applyPolicy_set_object (c : CSP) (p v : Str)
    (h : segKV p = some (objectSrcName, v)) :
    applyPolicy c p = { c with objectSrc := SourceList.unmarshalStr v } := by
  unfold applyPolicy
  simp only [h]
  rw [if_neg (by decide), if_neg (by decide), if_neg (by decide), if_neg (by decide), if_neg (by decide), if_neg (by decide), if_neg (by decide), if_neg (by decide), if_pos (by trivial)]

/-- A segment keyed `scriptSrcName` re-unmarshals `scriptSrc` from its value. -/
theorem applyPolicy_set_script (c : CSP) (p v : Str)
    (h : segKV p = some (scriptSrcName, v)) :
    applyPolicy c p = { c with scriptSrc := SourceList.unmarshalStr v } := by
  unfold applyPolicy
  simp only [h]
  rw [if_neg (by decide), if_neg (by decide), if_neg (by decide), if_neg (by decide), if_neg (by decide), if_neg (by decide), if_neg (by decide), if_neg (by decide), if_neg (by decide), if_pos (by trivial)]

/-- A segment keyed `styleSrcName` re-unmarshals `styleSrc` from its value. -/
theorem applyPolicy_set_style (c : CSP) (p v : Str)
    (h : segKV p = some (styleSrcName, v)) :
    applyPolicy c p = { c with styleSrc := SourceList.unmarshalStr v } := by
  unfold applyPolicy
  simp only [h]
  rw [if_neg (by decide), if_neg (by decide), if_neg (by decide), if_neg (by decide), if_neg (by decide), if_neg (by decide), if_neg (by decide), if_neg (by decide), if_neg (by decide), if_neg (by decide), if_pos (by trivial)]

/-- A segment keyed `workerSrcName` re-unmarshals `workerSrc` from its value. -/
theorem applyPolicy_set_worker (c : CSP) (p v : Str)
    (h : segKV p = some (workerSrcName, v)) :
    applyPolicy c p = { c with workerSrc := SourceList.unmarshalStr v } := by
  unfold applyPolicy
  simp only [h]
  rw [if_neg (by decide), if_neg (by decide), if_neg (by decide), if_neg (by decide), if_neg (by decide), if_neg (by decide), if_neg (by decide), if_neg (by decide), if_neg (by decide), if_neg (by decide), if_neg (by decide), if_pos (by trivial)]

/-- A segment keyed `reportToName` assigns its value to `reportTo`. -/
theorem applyPolicy_set_reportTo (c : CSP) (p v : Str)
    (h : segKV p = some (reportToName, v)) :
    applyPolicy c p = { c with reportTo := v } := by
  unfold applyPolicy
  simp only [h]
  rw [if_neg (by decide), if_neg (by decide), if_neg (by decide), if_neg (by decide), if_neg (by decide), if_neg (by decide), if_neg (by decide), if_neg (by decide), if_neg (by decide), if_neg (by decide), if_neg (by decide), if_neg (by decide), if_pos (by trivial)]

/- Directive-level consequences of the frame and set lemmas. -/

/-- Every directive name is non-empty, whitespace-free at both ends,
space-free and `;`-free. -/
theorem dirName_clean : ∀ d : Dir, dirName d ≠ [] ∧
    headNonspace (dirName d) = true ∧ lastNonspace (dirName d) = true ∧
    ∀ c ∈ dirName d, c ≠ ' ' ∧ c ≠ ';' := by decide

/-- Distinct directives have distinct wire names. -/
theorem dirName_inj : ∀ a b : Dir, dirName a = dirName b → a = b := by decide

/-- A segment not keyed by a directive name leaves that directive's slot
unchanged. -/
theorem dirGet_applyPolicy_frame (c : CSP) (p : Str) (d : Dir)
    (h : segKey p ≠ some (dirName d)) :
    dirGet d (applyPolicy c p) = dirGet d c := by
  cases d with
  | childD => exact congrArg SlotVal.tok (applyPolicy_frame_child c p h)
  | connectD => exact congrArg SlotVal.tok (applyPolicy_frame_connect c p h)
  | defaultD => exact congrArg SlotVal.tok (applyPolicy_frame_default c p h)
  | fontD => exact congrArg SlotVal.tok (applyPolicy_frame_font c p h)
  | frameD => exact congrArg SlotVal.tok (applyPolicy_frame_frame c p h)
  | imgD => exact congrArg SlotVal.tok (applyPolicy_frame_img c p h)
  | manifestD => exact congrArg SlotVal.tok (applyPolicy_frame_manifest c p h)
  | mediaD => exact congrArg SlotVal.tok (applyPolicy_frame_media c p h)
  | objectD => exact congrArg SlotVal.tok (applyPolicy_frame_object c p h)
  | scriptD => exact congrArg SlotVal.tok (applyPolicy_frame_script c p h)
  | styleD => exact congrArg SlotVal.tok (applyPolicy_frame_style c p h)
  | workerD => exact congrArg SlotVal.tok (applyPolicy_frame_worker c p h)
  | reportToD => exact congrArg SlotVal.scalar (applyPolicy_frame_reportTo c p h)

/-- A segment keyed by a directive name stores the decoded value into that
directive's slot. -/
theorem dirGet_applyPolicy_set (c : CSP) (p v : Str) (d : Dir)
    (h : segKV p = some (dirName d, v)) :
    dirGet d (applyPolicy c p) = decodedVal d v := by
  cases d with
  | childD => rw [applyPolicy_set_child c p v h]; rfl
  | connectD => rw [applyPolicy_set_connect c p v h]; rfl
  | defaultD => rw [applyPolicy_set_default c p v h]; rfl
  | fontD => rw [applyPolicy_set_font c p v h]; rfl
  | frameD => rw [applyPolicy_set_frame c p v h]; rfl
  | imgD => rw [applyPolicy_set_img c p v h]; rfl
  | manifestD => rw [applyPolicy_set_manifest c p v h]; rfl
  | mediaD => rw [applyPolicy_set_media c p v h]; rfl
  | objectD => rw [applyPolicy_set_object c p v h]; rfl
  | scriptD => rw [applyPolicy_set_script c p v h]; rfl
  | styleD => rw [applyPolicy_set_style c p v h]; rfl
  | workerD => rw [applyPolicy_set_worker c p v h]; rfl
  | reportToD => rw [applyPolicy_set_reportTo c p v h]; rfl

/-- On a marshalled entry for a directive with a clean value, the segment
split recovers the directive name and the value. -/
theorem segKV_entry_dir (d : Dir) (v : Str) (hv : cleanVal v = true) :
    segKV (dirEntry (dirName d) v) = some (dirName d, v) := by
  obtain ⟨h1, h2, h3, h4⟩ := dirName_clean d
  exact segKV_entry (dirName d) v h1 h2 h3 (fun c hc => (h4 c hc).1) hv

/-- On a marshalled entry for a directive with any value, the segment is
skipped or keyed by the directive name. -/
theorem segKV_entry_dir_or (d : Dir) (v : Str) :
    segKV (dirEntry (dirName d) v) = none ∨
      ∃ w, segKV (dirEntry (dirName d) v) = some (dirName d, w) := by
  obtain ⟨h1, h2, h3, h4⟩ := dirName_clean d
  exact segKV_entry_or (dirName d) v h1 h2 h3 (fun c hc => (h4 c hc).1)

/-- The entry of one directive never disturbs the slot of another. -/
theorem dirGet_applyPolicy_entry_ne (c : CSP) (d d' : Dir) (v : Str)
    (hne : d' ≠ d) :
    dirGet d (applyPolicy c (dirEntry (dirName d') v)) = dirGet d c := by
  have hNe : dirName d' ≠ dirName d := fun he => hne (dirName_inj d' d he)
  rcases segKV_entry_dir_or d' v with h | ⟨w, h⟩
  · have hskip : applyPolicy c (dirEntry (dirName d') v) = c := by
      unfold applyPolicy; rw [h]
    rw [hskip]
  · apply dirGet_applyPolicy_frame
    rw [segKey, h]
    simp [hNe]

/-- Processing segments none of which is keyed by a directive leaves that
directive's slot unchanged. -/
theorem foldl_applyPolicy_frame (segs : List Str) (c : CSP) (d : Dir)
    (h : ∀ s ∈ segs, segKey s ≠ some (dirName d)) :
    dirGet d (List.foldl applyPolicy c segs) = dirGet d c := by
  induction segs generalizing c with
  | nil => rfl
  | cons s rest ih =>
    rw [List.foldl_cons, ih _ (fun x hx => h x (List.mem_cons_of_mem s hx))]
    exact dirGet_applyPolicy_frame c s d (h s (by simp))

/-- Processing segments never changes the report-only flag. -/
theorem foldl_applyPolicy_reportOnly (segs : List Str) (c : CSP) :
    (List.foldl applyPolicy c segs).reportOnly = c.reportOnly := by
  induction segs generalizing c with
  | nil => rfl
  | cons s rest ih =>
    rw [List.foldl_cons, ih, applyPolicy_reportOnly]

/-- Segments with their decode-side leading space behave like the bare
entries. -/
theorem foldl_applyPolicy_map_space (es : List Str) (c : CSP) :
    List.foldl applyPolicy c (es.map (fun x => ' ' :: x)) =
      List.foldl applyPolicy c es := by
  induction es generalizing c with
  | nil => rfl
  | cons e rest ih =>
    rw [List.map_cons, List.foldl_cons, List.foldl_cons,
      applyPolicy_cons_space, ih]

/- Last-occurrence bookkeeping for entry lists. -/

/-- The fold computing `lastValFor` relates to an arbitrary accumulator. -/
theorem lastValFor_acc (d : Dir) (l : List (Dir × Str)) (acc : Option Str) :
    l.foldl (fun a dv => if dv.1 = d then some dv.2 else a) acc =
      match lastValFor d l with
      | some v => some v
      | none => acc := by
  induction l generalizing acc with
  | nil => rfl
  | cons dv rest ih =>
    have hL : lastValFor d (dv :: rest) =
        rest.foldl (fun a x => if x.1 = d then some x.2 else a)
          (if dv.1 = d then some dv.2 else none) := rfl
    rw [List.foldl_cons, ih, hL, ih]
    cases lastValFor d rest with
    | some v => rfl
    | none => by_cases hdv : dv.1 = d <;> simp [hdv]

/-- `lastValFor` over an append prefers the second list. -/
theorem lastValFor_append (d : Dir) (l₁ l₂ : List (Dir × Str)) :
    lastValFor d (l₁ ++ l₂) =
      match lastValFor d l₂ with
      | some v => some v
      | none => lastValFor d l₁ := by
  unfold lastValFor
  rw [List.foldl_append]
  exact lastValFor_acc d l₂ _

/-- Folding a generic function over an optional singleton. -/
theorem foldl_opt {α β : Type} (f : β → α → β) (s : β) (c : Prop)
    [Decidable c] (x : α) :
    List.foldl f s (if c then [x] else []) = if c then f s x else s := by
  split <;> rfl

/-- Folding a generic function over a negated optional singleton. -/
theorem foldl_opt_swap {α β : Type} (f : β → α → β) (s : β) (c : Prop)
    [Decidable c] (x : α) :
    List.foldl f s (if c then [] else [x]) = if c then s else f s x := by
  split <;> rfl

/-- Decoding the marshalled entries of an entry list with clean values sets
each directive slot to its last-written value and leaves the rest alone. -/
theorem dirGet_foldl_entries (l : List (Dir × Str)) (c : CSP) (d : Dir)
    (hclean : ∀ dv ∈ l, cleanVal dv.2 = true) :
    dirGet d (List.foldl applyPolicy c (l.map entryText)) =
      match lastValFor d l with
      | some v => decodedVal d v
      | none => dirGet d c := by
  induction l generalizing c with
  | nil => rfl
  | cons dv rest ih =>
    rw [List.map_cons, List.foldl_cons,
      ih _ (fun x hx => hclean x (List.mem_cons_of_mem dv hx))]
    have hL : lastValFor d (dv :: rest) =
        match lastValFor d rest with
        | some v => some v
        | none => if dv.1 = d then some dv.2 else none := by
      have h0 : lastValFor d (dv :: rest) =
          rest.foldl (fun a x => if x.1 = d then some x.2 else a)
            (if dv.1 = d then some dv.2 else none) := rfl
      rw [h0, lastValFor_acc]
    rw [hL]
    cases hr : lastValFor d rest with
    | some v => rfl
    | none =>
      by_cases hdv : dv.1 = d
      · subst hdv
        have hset : dirGet dv.1 (applyPolicy c (entryText dv)) =
            decodedVal dv.1 dv.2 := by
          apply dirGet_applyPolicy_set
          exact segKV_entry_dir dv.1 dv.2 (hclean dv (by simp))
        simp [entryText] at hset
        simp [entryText, hset]
      · have hfr : dirGet d (applyPolicy c (entryText dv)) = dirGet d c :=
          dirGet_applyPolicy_entry_ne c d dv.1 dv.2 hdv
        simp [entryText] at hfr
        simp [entryText, hfr, hdv]

/- Cleanliness transfer from tokens to marshalled values. -/

/-- Membership in an optional singleton. -/
theorem mem_opt {α : Type} {a x : α} {c : Prop} [Decidable c] :
    (a ∈ (if c then [x] else [])) ↔ c ∧ a = x := by
  split <;> simp [*]

/-- Every character of a join comes from the separator or from an entry. -/
theorem mem_joinSep (sep : Str) (es : List Str) (c : Char)
    (h : c ∈ joinSep sep es) : c ∈ sep ∨ ∃ e ∈ es, c ∈ e := by
  induction es with
  | nil => simp [joinSep] at h
  | cons x xs ih =>
    cases xs with
    | nil => exact Or.inr ⟨x, by simp, h⟩
    | cons y ys =>
      rw [joinSep_cons_cons] at h
      rcases List.mem_append.1 h with h1 | h2
      · rcases List.mem_append.1 h1 with h3 | h4
        · exact Or.inr ⟨x, by simp, h3⟩
        · exact Or.inl h4
      · rcases ih h2 with h5 | ⟨e, he, hc⟩
        · exact Or.inl h5
        · exact Or.inr ⟨e, List.mem_cons_of_mem x he, hc⟩

/-- Unpacking the clean-token test. -/
theorem cleanTok_spec (t : Str) (h : cleanTok t = true) :
    t ≠ [] ∧ ∀ c ∈ t, isSpaceChar c = false ∧ c ≠ ';' := by
  unfold cleanTok at h
  simp only [Bool.and_eq_true, List.all_eq_true, Bool.not_eq_true'] at h
  obtain ⟨h1, h2⟩ := h
  refine ⟨?_, ?_⟩
  · cases t with
    | nil => simp at h1
    | cons a s => simp
  · intro c hc
    have := h2 c hc
    simp only [Bool.and_eq_true, Bool.not_eq_true', decide_eq_true_eq] at this
    exact this

/-- A string of non-whitespace characters starts in non-whitespace. -/
theorem headNonspace_of_all (t : Str) (h : ∀ c ∈ t, isSpaceChar c = false) :
    headNonspace t = true := by
  cases t with
  | nil => rfl
  | cons a s => simpa [headNonspace] using h a (by simp)

/-- A string of non-whitespace characters ends in non-whitespace. -/
theorem lastNonspace_of_all (t : Str) (h : ∀ c ∈ t, isSpaceChar c = false) :
    lastNonspace t = true := by
  cases hg : t.getLast? with
  | none => simp [lastNonspace, hg]
  | some a =>
    have := h a (List.mem_of_mem_getLast? hg)
    simp [lastNonspace, hg, this]

/-- A clean token is a clean directive value. -/
theorem cleanVal_of_cleanTok (t : Str) (h : cleanTok t = true) :
    cleanVal t = true := by
  obtain ⟨h1, h2⟩ := cleanTok_spec t h
  unfold cleanVal
  simp only [Bool.and_eq_true, Bool.not_eq_true', List.all_eq_true]
  refine ⟨⟨⟨?_, headNonspace_of_all t (fun c hc => (h2 c hc).1)⟩,
    lastNonspace_of_all t (fun c hc => (h2 c hc).1)⟩, ?_⟩
  · cases t with
    | nil => exact absurd rfl h1
    | cons a s => rfl
  · intro c hc
    simpa using (h2 c hc).2

/-- The marshalled text of a non-empty clean source list is a clean value. -/
theorem cleanVal_marshal (l : SourceList) (hl : cleanList l = true)
    (hne : l ≠ []) : cleanVal (SourceList.marshalStr l) = true := by
  have hts : ∀ t ∈ l, t ≠ [] ∧ ∀ c ∈ t, isSpaceChar c = false ∧ c ≠ ';' := by
    intro t ht
    exact cleanTok_spec t (by
      unfold cleanList at hl
      exact (List.all_eq_true.1 hl) t ht)
  obtain ⟨t0, ts, rfl⟩ : ∃ t0 ts, l = t0 :: ts := by
    cases l with
    | nil => exact absurd rfl hne
    | cons a b => exact ⟨a, b, rfl⟩
  unfold cleanVal SourceList.marshalStr
  simp only [Bool.and_eq_true, Bool.not_eq_true', List.all_eq_true]
  refine ⟨⟨⟨?_, ?_⟩, ?_⟩, ?_⟩
  · have := joinSep_ne_nil_of " ".data t0 ts (hts t0 (by simp)).1
    cases hj : joinSep " ".data (t0 :: ts) with
    | nil => exact absurd hj this
    | cons a s => rfl
  · exact joinSep_headNonspace " ".data t0 ts (hts t0 (by simp)).1
      (headNonspace_of_all t0 (fun c hc => ((hts t0 (by simp)).2 c hc).1))
  · exact joinSep_lastNonspace " ".data (t0 :: ts) (fun e he =>
      ⟨(hts e he).1, lastNonspace_of_all e (fun c hc => ((hts e he).2 c hc).1)⟩)
  · intro c hc
    rcases mem_joinSep " ".data (t0 :: ts) c hc with hsep | ⟨e, he, hce⟩
    · simp at hsep
      subst hsep
      simp
    · simpa using ((hts e he).2 c hce).2

/-- Splitting the space-joined clean tokens recovers the token list. -/
theorem splitOn_space_join (l : SourceList)
    (hl : ∀ t ∈ l, t ≠ [] ∧ ∀ c ∈ t, c ≠ ' ') (hne : l ≠ []) :
    splitOn ' ' (SourceList.marshalStr l) = l := by
  induction l with
  | nil => exact absurd rfl hne
  | cons t ts ih =>
    cases ts with
    | nil => exact splitOn_no_sep ' ' t (hl t (by simp)).2
    | cons u rest =>
      have hjoin : SourceList.marshalStr (t :: u :: rest) =
          t ++ ' ' :: SourceList.marshalStr (u :: rest) := by
        unfold SourceList.marshalStr
        rw [joinSep_cons_cons, List.append_assoc]
        rfl
      rw [hjoin, splitOn_append_sep ' ' t _ (hl t (by simp)).2,
        ih (fun x hx => hl x (List.mem_cons_of_mem t hx)) (by simp)]

/-- Splitting the `"; "`-joined `;`-free entries yields the first entry and
the rest with one leading space each. -/
theorem splitOn_join_semi (e : Str) (rest : List Str)
    (h : ∀ x ∈ e :: rest, ∀ c ∈ x, c ≠ ';') :
    splitOn ';' (joinSep "; ".data (e :: rest)) =
      e :: rest.map (fun x => ' ' :: x) := by
  induction rest generalizing e with
  | nil => exact splitOn_no_sep ';' e (h e (by simp))
  | cons y ys ih =>
    have hjoin : joinSep "; ".data (e :: y :: ys) =
        e ++ ';' :: (' ' :: joinSep "; ".data (y :: ys)) := by
      rw [joinSep_cons_cons, List.append_assoc]
      rfl
    have hy := ih y (fun x hx => h x (List.mem_cons_of_mem e hx))
    rw [hjoin, splitOn_append_sep ';' e _ (h e (by simp)),
      splitOn_cons_ne ';' ' ' _ _ _ (by decide) hy]
    rfl

/- Bridging the marshaller's entry strings and the directive entry list. -/

/-- The `policies` slice is the entry list rendered to text. -/
theorem policiesList_eq_map (P : CSP) :
    P.policiesList = (entryList P).map entryText := by
  unfold CSP.policiesList entryList
  simp only [List.map_append, apply_ite (List.map entryText), List.map_cons,
    List.map_nil, entryText, dirName]

/-- Every value in the entry list of a clean policy is clean. -/
theorem entryList_vals_clean (P : CSP) (h : cleanCSP P = true) :
    ∀ dv ∈ entryList P, cleanVal dv.2 = true := by
  unfold cleanCSP at h
  simp only [Bool.and_eq_true, Bool.or_eq_true] at h
  obtain ⟨⟨⟨⟨⟨⟨⟨⟨⟨⟨⟨⟨hch, hco⟩, hde⟩, hfo⟩, hfr⟩, him⟩, hma⟩, hme⟩, hob⟩,
    hsc⟩, hst⟩, hwo⟩, hrt⟩ := h
  intro dv hdv
  unfold entryList at hdv
  simp only [List.mem_append, mem_opt] at hdv
  have hlen : ∀ (l : SourceList), l.length ≠ 0 → l ≠ [] := by
    intro l hl hc; subst hc; simp at hl
  rcases hdv with (((((((((((he1 | he2) | he3) | he4) | he5) | he6) | he7) | he8) | he9) | he10) | he11) | he12) | he13
  · obtain ⟨hc, he⟩ := he1; subst he; exact cleanVal_marshal _ hde (hlen _ hc)
  · obtain ⟨hc, he⟩ := he2; subst he; exact cleanVal_marshal _ hch (hlen _ hc)
  · obtain ⟨hc, he⟩ := he3; subst he; exact cleanVal_marshal _ hco (hlen _ hc)
  · obtain ⟨hc, he⟩ := he4; subst he; exact cleanVal_marshal _ hfo (hlen _ hc)
  · obtain ⟨hc, he⟩ := he5; subst he; exact cleanVal_marshal _ hfr (hlen _ hc)
  · obtain ⟨hc, he⟩ := he6; subst he; exact cleanVal_marshal _ him (hlen _ hc)
  · obtain ⟨hc, he⟩ := he7; subst he; exact cleanVal_marshal _ hma (hlen _ hc)
  · obtain ⟨hc, he⟩ := he8; subst he; exact cleanVal_marshal _ hme (hlen _ hc)
  · obtain ⟨hc, he⟩ := he9; subst he; exact cleanVal_marshal _ hob (hlen _ hc)
  · obtain ⟨hc, he⟩ := he10; subst he; exact cleanVal_marshal _ hsc (hlen _ hc)
  · obtain ⟨hc, he⟩ := he11; subst he; exact cleanVal_marshal _ hst (hlen _ hc)
  · obtain ⟨hc, he⟩ := he12; subst he; exact cleanVal_marshal _ hwo (hlen _ hc)
  · obtain ⟨hc, he⟩ := he13; subst he
    rcases hrt with hrt | hrt
    · simp only [List.isEmpty_eq_true] at hrt
      exact absurd hrt hc
    · exact cleanVal_of_cleanTok _ hrt

/-- Every entry string of a clean policy is non-empty, `;`-free and has
non-whitespace at both ends. -/
theorem policiesList_entries_clean (P : CSP) (h : cleanCSP P = true) :
    ∀ e ∈ P.policiesList, e ≠ [] ∧ headNonspace e = true ∧
      lastNonspace e = true ∧ ∀ c ∈ e, c ≠ ';' := by
  intro e he
  rw [policiesList_eq_map] at he
  obtain ⟨dv, hdv, rfl⟩ := List.mem_map.1 he
  have hv := entryList_vals_clean P h dv hdv
  unfold cleanVal at hv
  simp only [Bool.and_eq_true, Bool.not_eq_true', List.all_eq_true,
    decide_eq_true_eq] at hv
  obtain ⟨⟨⟨hv1, hvh⟩, hvl⟩, hvs⟩ := hv
  have hv1' : dv.2 ≠ [] := by
    cases hval : dv.2 with
    | nil => rw [hval] at hv1; simp at hv1
    | cons a s => simp
  obtain ⟨hn1, hn2, hn3, hn4⟩ := dirName_clean dv.1
  unfold entryText
  rw [dirEntry_eq]
  refine ⟨by simp, headNonspace_append _ _ hn1 hn2,
    lastNonspace_entry _ _ hv1' hvl, ?_⟩
  intro c hc
  rcases List.mem_append.1 hc with hcn | hcv
  · exact (hn4 c hcn).2
  · rcases List.mem_cons.1 hcv with hsp | hcv2
    · subst hsp; decide
    · exact hvs c hcv2

/-- For a clean policy, decoding the marshalled text is the same as folding
the segment processor over the marshaller's entries. -/
theorem unmarshal_marshal_foldl (P : CSP) (h : cleanCSP P = true)
    (c0 : CSP) :
    c0.unmarshalStr P.marshalStr = List.foldl applyPolicy c0 P.policiesList := by
  have hcl := policiesList_entries_clean P h
  cases hE : P.policiesList with
  | nil =>
    have hm : P.marshalStr = [] := by
      unfold CSP.marshalStr
      rw [hE]
      rfl
    rw [hm]
    unfold CSP.unmarshalStr
    rfl
  | cons e rest =>
    rw [hE] at hcl
    have hjmem : ∀ x ∈ e :: rest, ∀ c ∈ x, c ≠ ';' := by
      intro x hx c hc
      exact (hcl x hx).2.2.2 c hc
    have hm : P.marshalStr = joinSep "; ".data (e :: rest) := by
      unfold CSP.marshalStr
      rw [hE]
      apply trimSpace_eq_self
      · exact joinSep_headNonspace "; ".data e rest (hcl e (by simp)).1
          (hcl e (by simp)).2.1
      · exact joinSep_lastNonspace "; ".data (e :: rest)
          (fun x hx => ⟨(hcl x hx).1, (hcl x hx).2.2.1⟩)
    unfold CSP.unmarshalStr
    rw [hm, splitOn_join_semi e rest hjmem, List.foldl_cons,
      foldl_applyPolicy_map_space, ← List.foldl_cons]

/-- A policy is determined by its thirteen directive slots and the
report-only flag. -/
theorem CSP.eq_of_parts (a b : CSP) (h : ∀ d, dirGet d a = dirGet d b)
    (hr : a.reportOnly = b.reportOnly) : a = b := by
  have h1 := h Dir.childD
  have h2 := h Dir.connectD
  have h3 := h Dir.defaultD
  have h4 := h Dir.fontD
  have h5 := h Dir.frameD
  have h6 := h Dir.imgD
  have h7 := h Dir.manifestD
  have h8 := h Dir.mediaD
  have h9 := h Dir.objectD
  have h10 := h Dir.scriptD
  have h11 := h Dir.styleD
  have h12 := h Dir.workerD
  have h13 := h Dir.reportToD
  simp only [dirGet, SlotVal.tok.injEq, SlotVal.scalar.injEq] at h1 h2 h3 h4 h5 h6 h7 h8 h9 h10 h11 h12 h13
  cases a
  cases b
  simp_all

/-- The last value recorded for each directive in the entry list is its
marshalled value when present, and nothing when absent. -/
theorem lastValFor_entryList (P : CSP) (d : Dir) :
    lastValFor d (entryList P) =
      match d with
      | .childD => if P.childSrc.length ≠ 0 then some P.childSrc.marshalStr else none
      | .connectD => if P.connectSrc.length ≠ 0 then some P.connectSrc.marshalStr else none
      | .defaultD => if P.defaultSrc.length ≠ 0 then some P.defaultSrc.marshalStr else none
      | .fontD => if P.fontSrc.length ≠ 0 then some P.fontSrc.marshalStr else none
      | .frameD => if P.frameSrc.length ≠ 0 then some P.frameSrc.marshalStr else none
      | .imgD => if P.imgSrc.length ≠ 0 then some P.imgSrc.marshalStr else none
      | .manifestD => if P.manifestSrc.length ≠ 0 then some P.manifestSrc.marshalStr else none
      | .mediaD => if P.mediaSrc.length ≠ 0 then some P.mediaSrc.marshalStr else none
      | .objectD => if P.objectSrc.length ≠ 0 then some P.objectSrc.marshalStr else none
      | .scriptD => if P.scriptSrc.length ≠ 0 then some P.scriptSrc.marshalStr else none
      | .styleD => if P.styleSrc.length ≠ 0 then some P.styleSrc.marshalStr else none
      | .workerD => if P.workerSrc.length ≠ 0 then some P.workerSrc.marshalStr else none
      | .reportToD => if P.reportTo ≠ [] then some P.reportTo else none := by
  cases d <;>
    simp [entryList, lastValFor, List.foldl_append, foldl_opt, foldl_opt_swap,
      ite_self]

/-- For a clean policy, decoding the encoded text into the zero policy
reconstructs every directive slot (the flag is the zero value's `false`). -/
theorem unmarshal_marshal_clean (P : CSP) (h : cleanCSP P = true) :
    emptyCSP.unmarshalStr P.marshalStr = { P with reportOnly := false } := by
  have h' := h
  unfold cleanCSP at h'
  simp only [Bool.and_eq_true, Bool.or_eq_true] at h'
  obtain ⟨⟨⟨⟨⟨⟨⟨⟨⟨⟨⟨⟨hch, hco⟩, hde⟩, hfo⟩, hfr⟩, him⟩, hma⟩, hme⟩, hob⟩,
    hsc⟩, hst⟩, hwo⟩, hrt⟩ := h'
  have hsplit : ∀ (l : SourceList), cleanList l = true → l ≠ [] →
      splitOn ' ' (SourceList.marshalStr l) = l := by
    intro l hl hne
    apply splitOn_space_join l _ hne
    intro t ht
    obtain ⟨h1, h2⟩ := cleanTok_spec t ((List.all_eq_true.1 hl) t ht)
    refine ⟨h1, fun c hc he => ?_⟩
    subst he
    exact absurd (h2 ' ' hc).1 (by decide)
  apply CSP.eq_of_parts
  · intro d
    rw [unmarshal_marshal_foldl P h emptyCSP, policiesList_eq_map,
      dirGet_foldl_entries _ _ _ (entryList_vals_clean P h),
      lastValFor_entryList P d]
    cases d
    case childD =>
      by_cases hc : P.childSrc.length ≠ 0
      · have hne : P.childSrc ≠ [] := fun hnil => hc (by rw [hnil]; rfl)
        simp only [if_pos hc]
        show SlotVal.tok (splitOn ' ' P.childSrc.marshalStr) = SlotVal.tok P.childSrc
        rw [hsplit P.childSrc hch hne]
      · have hnil : P.childSrc = [] := by
          have h0 : P.childSrc.length = 0 := not_ne_iff.1 hc
          simpa using h0
        simp only [if_neg hc]
        show SlotVal.tok ([] : SourceList) = SlotVal.tok P.childSrc
        rw [hnil]
    case connectD =>
      by_cases hc : P.connectSrc.length ≠ 0
      · have hne : P.connectSrc ≠ [] := fun hnil => hc (by rw [hnil]; rfl)
        simp only [if_pos hc]
        show SlotVal.tok (splitOn ' ' P.connectSrc.marshalStr) = SlotVal.tok P.connectSrc
        rw [hsplit P.connectSrc hco hne]
      · have hnil : P.connectSrc = [] := by
          have h0 : P.connectSrc.length = 0 := not_ne_iff.1 hc
          simpa using h0
        simp only [if_neg hc]
        show SlotVal.tok ([] : SourceList) = SlotVal.tok P.connectSrc
        rw [hnil]
    case defaultD =>
      by_cases hc : P.defaultSrc.length ≠ 0
      · have hne : P.defaultSrc ≠ [] := fun hnil => hc (by rw [hnil]; rfl)
        simp only [if_pos hc]
        show SlotVal.tok (splitOn ' ' P.defaultSrc.marshalStr) = SlotVal.tok P.defaultSrc
        rw [hsplit P.defaultSrc hde hne]
      · have hnil : P.defaultSrc = [] := by
          have h0 : P.defaultSrc.length = 0 := not_ne_iff.1 hc
          simpa using h0
        simp only [if_neg hc]
        show SlotVal.tok ([] : SourceList) = SlotVal.tok P.defaultSrc
        rw [hnil]
    case fontD =>
      by_cases hc : P.fontSrc.length ≠ 0
      · have hne : P.fontSrc ≠ [] := fun hnil => hc (by rw [hnil]; rfl)
        simp only [if_pos hc]
        show SlotVal.tok (splitOn ' ' P.fontSrc.marshalStr) = SlotVal.tok P.fontSrc
        rw [hsplit P.fontSrc hfo hne]
      · have hnil : P.fontSrc = [] := by
          have h0 : P.fontSrc.length = 0 := not_ne_iff.1 hc
          simpa using h0
        simp only [if_neg hc]
        show SlotVal.tok ([] : SourceList) = SlotVal.tok P.fontSrc
        rw [hnil]
    case frameD =>
      by_cases hc : P.frameSrc.length ≠ 0
      · have hne : P.frameSrc ≠ [] := fun hnil => hc (by rw [hnil]; rfl)
        simp only [if_pos hc]
        show SlotVal.tok (splitOn ' ' P.frameSrc.marshalStr) = SlotVal.tok P.frameSrc
        rw [hsplit P.frameSrc hfr hne]
      · have hnil : P.frameSrc = [] := by
          have h0 : P.frameSrc.length = 0 := not_ne_iff.1 hc
          simpa using h0
        simp only [if_neg hc]
        show SlotVal.tok ([] : SourceList) = SlotVal.tok P.frameSrc
        rw [hnil]
    case imgD =>
      by_cases hc : P.imgSrc.length ≠ 0
      · have hne : P.imgSrc ≠ [] := fun hnil => hc (by rw [hnil]; rfl)
        simp only [if_pos hc]
        show SlotVal.tok (splitOn ' ' P.imgSrc.marshalStr) = SlotVal.tok P.imgSrc
        rw [hsplit P.imgSrc him hne]
      · have hnil : P.imgSrc = [] := by
          have h0 : P.imgSrc.length = 0 := not_ne_iff.1 hc
          simpa using h0
        simp only [if_neg hc]
        show SlotVal.tok ([] : SourceList) = SlotVal.tok P.imgSrc
        rw [hnil]
    case manifestD =>
      by_cases hc : P.manifestSrc.length ≠ 0
      · have hne : P.manifestSrc ≠ [] := fun hnil => hc (by rw [hnil]; rfl)
        simp only [if_pos hc]
        show SlotVal.tok (splitOn ' ' P.manifestSrc.marshalStr) = SlotVal.tok P.manifestSrc
        rw [hsplit P.manifestSrc hma hne]
      · have hnil : P.manifestSrc = [] := by
          have h0 : P.manifestSrc.length = 0 := not_ne_iff.1 hc
          simpa using h0
        simp only [if_neg hc]
        show SlotVal.tok ([] : SourceList) = SlotVal.tok P.manifestSrc
        rw [hnil]
    case mediaD =>
      by_cases hc : P.mediaSrc.length ≠ 0
      · have hne : P.mediaSrc ≠ [] := fun hnil => hc (by rw [hnil]; rfl)
        simp only [if_pos hc]
        show SlotVal.tok (splitOn ' ' P.mediaSrc.marshalStr) = SlotVal.tok P.mediaSrc
        rw [hsplit P.mediaSrc hme hne]
      · have hnil : P.mediaSrc = [] := by
          have h0 : P.mediaSrc.length = 0 := not_ne_iff.1 hc
          simpa using h0
        simp only [if_neg hc]
        show SlotVal.tok ([] : SourceList) = SlotVal.tok P.mediaSrc
        rw [hnil]
    case objectD =>
      by_cases hc : P.objectSrc.length ≠ 0
      · have hne : P.objectSrc ≠ [] := fun hnil => hc (by rw [hnil]; rfl)
        simp only [if_pos hc]
        show SlotVal.tok (splitOn ' ' P.objectSrc.marshalStr) = SlotVal.tok P.objectSrc
        rw [hsplit P.objectSrc hob hne]
      · have hnil : P.objectSrc = [] := by
          have h0 : P.objectSrc.length = 0 := not_ne_iff.1 hc
          simpa using h0
        simp only [if_neg hc]
        show SlotVal.tok ([] : SourceList) = SlotVal.tok P.objectSrc
        rw [hnil]
    case scriptD =>
      by_cases hc : P.scriptSrc.length ≠ 0
      · have hne : P.scriptSrc ≠ [] := fun hnil => hc (by rw [hnil]; rfl)
        simp only [if_pos hc]
        show SlotVal.tok (splitOn ' ' P.scriptSrc.marshalStr) = SlotVal.tok P.scriptSrc
        rw [hsplit P.scriptSrc hsc hne]
      · have hnil : P.scriptSrc = [] := by
          have h0 : P.scriptSrc.length = 0 := not_ne_iff.1 hc
          simpa using h0
        simp only [if_neg hc]
        show SlotVal.tok ([] : SourceList) = SlotVal.tok P.scriptSrc
        rw [hnil]
    case styleD =>
      by_cases hc : P.styleSrc.length ≠ 0
      · have hne : P.styleSrc ≠ [] := fun hnil => hc (by rw [hnil]; rfl)
        simp only [if_pos hc]
        show SlotVal.tok (splitOn ' ' P.styleSrc.marshalStr) = SlotVal.tok P.styleSrc
        rw [hsplit P.styleSrc hst hne]
      · have hnil : P.styleSrc = [] := by
          have h0 : P.styleSrc.length = 0 := not_ne_iff.1 hc
          simpa using h0
        simp only [if_neg hc]
        show SlotVal.tok ([] : SourceList) = SlotVal.tok P.styleSrc
        rw [hnil]
    case workerD =>
      by_cases hc : P.workerSrc.length ≠ 0
      · have hne : P.workerSrc ≠ [] := fun hnil => hc (by rw [hnil]; rfl)
        simp only [if_pos hc]
        show SlotVal.tok (splitOn ' ' P.workerSrc.marshalStr) = SlotVal.tok P.workerSrc
        rw [hsplit P.workerSrc hwo hne]
      · have hnil : P.workerSrc = [] := by
          have h0 : P.workerSrc.length = 0 := not_ne_iff.1 hc
          simpa using h0
        simp only [if_neg hc]
        show SlotVal.tok ([] : SourceList) = SlotVal.tok P.workerSrc
        rw [hnil]
    case reportToD =>
      by_cases hc : P.reportTo ≠ []
      · simp only [if_pos hc]
        rfl
      · have hnil : P.reportTo = [] := not_ne_iff.1 hc
        simp only [if_neg hc]
        show SlotVal.scalar ([] : Str) = SlotVal.scalar P.reportTo
        rw [hnil]
  · show (emptyCSP.unmarshalStr P.marshalStr).reportOnly = _
    unfold CSP.unmarshalStr
    rw [foldl_applyPolicy_reportOnly]
    rfl

/-- C1 (amended): for every policy whose source tokens are non-empty and
free of whitespace and `;`, and whose scalar is empty or likewise clean,
`UnmarshalText(MarshalText(P))` into a fresh zero policy recovers every
directive slot of `P` (the zero policy's report-only flag stays `false`). -/
theorem c1_round_trip (P : CSP) (h : cleanCSP P = true) :
    ∃ t, P.marshalText = Except.ok t ∧
      emptyCSP.unmarshalText t = Except.ok { P with reportOnly := false } := by
  refine ⟨P.marshalStr, rfl, ?_⟩
  unfold CSP.unmarshalText
  rw [unmarshal_marshal_clean P h]

/-- C1 witness: the default policy is clean and round-trips. -/
theorem c1_witness :
    cleanCSP defaultCSP = true ∧
      ∃ t, defaultCSP.marshalText = Except.ok t ∧
        emptyCSP.unmarshalText t =
          Except.ok { defaultCSP with reportOnly := false } :=
  ⟨by decide, c1_round_trip defaultCSP (by decide)⟩

/-- C1 counterexample: a policy whose only token is `"\tx"` — non-empty and
free of embedded spaces and semicolons, as the claim requires — does not
round-trip: the tab is part of the whitespace the decoder trims, so the
token comes back as `"x"`. -/
theorem c1_counterexample :
    (∀ t ∈ ({ defaultSrc := [['\t', 'x']], reportTo := "r".data } : CSP).defaultSrc,
      t ≠ [] ∧ ∀ c ∈ t, c ≠ ' ' ∧ c ≠ ';') ∧
    (({ defaultSrc := [['\t', 'x']], reportTo := "r".data } : CSP).reportTo ≠ [] ∧
      ∀ c ∈ ({ defaultSrc := [['\t', 'x']], reportTo := "r".data } : CSP).reportTo,
        c ≠ ' ' ∧ c ≠ ';') ∧
    (emptyCSP.unmarshalStr
        (CSP.marshalStr { defaultSrc := [['\t', 'x']], reportTo := "r".data })).defaultSrc =
      [['x']] ∧
    ([['x']] : SourceList) ≠ [['\t', 'x']] := by decide

/-- C10: decoding merges into the receiver: a directive whose name is not
the key of any recognized `;`-segment of the input keeps exactly its prior
value. -/
theorem c10_unmarshal_frame (c : CSP) (t : Str) (d : Dir)
    (h : ∀ s ∈ splitOn ';' t, segKey s ≠ some (dirName d)) :
    ∀ c', c.unmarshalText t = Except.ok c' → dirGet d c' = dirGet d c := by
  intro c' hc'
  have : c' = c.unmarshalStr t := by
    unfold CSP.unmarshalText at hc'
    exact (Except.ok.inj hc').symm
  subst this
  unfold CSP.unmarshalStr
  exact foldl_applyPolicy_frame _ c d h

/-- C10 witness: decoding `media-src x` into the default policy leaves its
`child-src` slot untouched. -/
theorem c10_witness :
    (∀ s ∈ splitOn ';' "media-src x".data,
      segKey s ≠ some (dirName Dir.childD)) ∧
    ∀ c', defaultCSP.unmarshalText "media-src x".data = Except.ok c' →
      dirGet Dir.childD c' = dirGet Dir.childD defaultCSP :=
  ⟨by decide,
    c10_unmarshal_frame defaultCSP "media-src x".data Dir.childD (by decide)⟩

/-- C4: decoding is total (`UnmarshalText` always returns a nil error), a
segment without a key/value split or with an unrecognized key is ignored,
and a recognized segment stores its decoded value into its directive slot. -/
theorem c4_decode_total (c : CSP) (p : Str) :
    (segKV p = none → applyPolicy c p = c) ∧
    (∀ k v, segKV p = some (k, v) → (∀ d : Dir, k ≠ dirName d) →
      applyPolicy c p = c) ∧
    (∀ k v (d : Dir), segKV p = some (k, v) → k = dirName d →
      applyPolicy c p = applyDir d v c) ∧
    (∃ c', c.unmarshalText p = Except.ok c') := by
  refine ⟨?_, ?_, ?_, ⟨c.unmarshalStr p, rfl⟩⟩
  · intro hkv
    unfold applyPolicy
    rw [hkv]
  · intro k v hkv hun
    unfold applyPolicy
    simp only [hkv]
    have n1 : k ≠ childSrcName := hun Dir.childD
    have n2 : k ≠ connectSrcName := hun Dir.connectD
    have n3 : k ≠ defaultSrcName := hun Dir.defaultD
    have n4 : k ≠ fontSrcName := hun Dir.fontD
    have n5 : k ≠ frameSrcName := hun Dir.frameD
    have n6 : k ≠ imgSrcName := hun Dir.imgD
    have n7 : k ≠ manifestSrcName := hun Dir.manifestD
    have n8 : k ≠ mediaSrcName := hun Dir.mediaD
    have n9 : k ≠ objectSrcName := hun Dir.objectD
    have n10 : k ≠ scriptSrcName := hun Dir.scriptD
    have n11 : k ≠ styleSrcName := hun Dir.styleD
    have n12 : k ≠ workerSrcName := hun Dir.workerD
    have n13 : k ≠ reportToName := hun Dir.reportToD
    rw [if_neg n1, if_neg n2, if_neg n3, if_neg n4, if_neg n5, if_neg n6, if_neg n7, if_neg n8, if_neg n9, if_neg n10, if_neg n11, if_neg n12, if_neg n13]
  · intro k v d hkv hk
    subst hk
    cases d with
    | childD => rw [applyPolicy_set_child c p v hkv]; rfl
    | connectD => rw [applyPolicy_set_connect c p v hkv]; rfl
    | defaultD => rw [applyPolicy_set_default c p v hkv]; rfl
    | fontD => rw [applyPolicy_set_font c p v hkv]; rfl
    | frameD => rw [applyPolicy_set_frame c p v hkv]; rfl
    | imgD => rw [applyPolicy_set_img c p v hkv]; rfl
    | manifestD => rw [applyPolicy_set_manifest c p v hkv]; rfl
    | mediaD => rw [applyPolicy_set_media c p v hkv]; rfl
    | objectD => rw [applyPolicy_set_object c p v hkv]; rfl
    | scriptD => rw [applyPolicy_set_script c p v hkv]; rfl
    | styleD => rw [applyPolicy_set_style c p v hkv]; rfl
    | workerD => rw [applyPolicy_set_worker c p v hkv]; rfl
    | reportToD => rw [applyPolicy_set_reportTo c p v hkv]; rfl

/-- C4 witness: a bare directive name is ignored, an unrecognized segment is
ignored, a recognized segment decodes into its slot, and decoding arbitrary
text returns a nil error. -/
theorem c4_witness :
    (segKV "img-src".data = none ∧
      applyPolicy defaultCSP "img-src".data = defaultCSP) ∧
    (segKV "foo bar".data = some ("foo".data, "bar".data) ∧
      (∀ d : Dir, "foo".data ≠ dirName d) ∧
      applyPolicy defaultCSP "foo bar".data = defaultCSP) ∧
    (segKV "img-src x y".data = some (imgSrcName, "x y".data) ∧
      applyPolicy defaultCSP "img-src x y".data =
        applyDir Dir.imgD "x y".data defaultCSP) ∧
    (∃ c', emptyCSP.unmarshalText "### not a policy ;;;".data =
      Except.ok c') :=
  ⟨⟨by decide, (c4_decode_total defaultCSP "img-src".data).1 (by decide)⟩,
    ⟨by decide, by decide,
      (c4_decode_total defaultCSP "foo bar".data).2.1 "foo".data "bar".data
        (by decide) (by decide)⟩,
    ⟨by decide,
      (c4_decode_total defaultCSP "img-src x y".data).2.2.1 imgSrcName
        "x y".data Dir.imgD (by decide) (by decide)⟩,
    (c4_decode_total emptyCSP "### not a policy ;;;".data).2.2.2⟩

/-- C7: the middleware picks `Content-Security-Policy-Report-Only` exactly
when the report-only flag is set, encoding never fails, and every request
is delegated to the wrapped handler with the header set. -/
theorem c7_middleware (c : CSP) :
    ∃ v, c.marshalText = Except.ok v ∧
      c.serveOutcome =
        { headerSet := some
            ((if c.reportOnly then headerReportOnly else headerPolicy), v),
          delegated := true } :=
  ⟨c.marshalStr, rfl, rfl⟩

/-- C8: evaluating the default error hook on a fresh response writer with
status 415 and message `boom`: the hook writes the body first, which
commits status 200, so the later `WriteHeader(415)` is ignored — the
recorded status is 200, not the status passed to the hook. -/
theorem c8_default_error_hook_bug :
    defaultErrorWrite { committed := none, bodyOut := [] } 415 "boom".data =
      { committed := some 200, bodyOut := "boom".data } := by decide

/- Presence analysis (claim C5). -/

/-- The decode-side segments of a clean policy's encoding are exactly the
marshalled entries, the later ones carrying one leading space. -/
theorem splitOn_marshal (P : CSP) (h : cleanCSP P = true) :
    splitOn ';' P.marshalStr =
      match P.policiesList with
      | [] => [[]]
      | e :: rest => e :: rest.map (fun x => ' ' :: x) := by
  have hcl := policiesList_entries_clean P h
  cases hE : P.policiesList with
  | nil =>
    have hm : P.marshalStr = [] := by
      unfold CSP.marshalStr; rw [hE]; rfl
    rw [hm]; rfl
  | cons e rest =>
    rw [hE] at hcl
    have hm : P.marshalStr = joinSep "; ".data (e :: rest) := by
      unfold CSP.marshalStr
      rw [hE]
      apply trimSpace_eq_self
      · exact joinSep_headNonspace "; ".data e rest (hcl e (by simp)).1
          (hcl e (by simp)).2.1
      · exact joinSep_lastNonspace "; ".data (e :: rest)
          (fun x hx => ⟨(hcl x hx).1, (hcl x hx).2.2.1⟩)
    rw [hm, splitOn_join_semi e rest (fun x hx c hc => (hcl x hx).2.2.2 c hc)]

/-- Cons-step characterization of `lastValFor`. -/
theorem lastValFor_cons (d : Dir) (dv : Dir × Str) (rest : List (Dir × Str)) :
    lastValFor d (dv :: rest) =
      match lastValFor d rest with
      | some w => some w
      | none => if dv.1 = d then some dv.2 else none := by
  have h1 : lastValFor d (dv :: rest) =
      rest.foldl (fun a x => if x.1 = d then some x.2 else a)
        (if dv.1 = d then some dv.2 else none) := rfl
  rw [h1, lastValFor_acc]

/-- A recorded last value comes from an element of the list. -/
theorem lastValFor_mem (d : Dir) (l : List (Dir × Str)) (v : Str)
    (h : lastValFor d l = some v) : (d, v) ∈ l := by
  induction l with
  | nil => simp [lastValFor] at h
  | cons dv rest ih =>
    rw [lastValFor_cons] at h
    cases hr : lastValFor d rest with
    | some w =>
      rw [hr] at h
      have hwv : w = v := by simpa using h
      subst hwv
      exact List.mem_cons_of_mem dv (ih hr)
    | none =>
      rw [hr] at h
      by_cases hdv : dv.1 = d
      · rw [if_pos hdv] at h
        have hv2 : dv.2 = v := by simpa using h
        have hdveq : dv = (d, v) := by
          rw [← hdv, ← hv2]
        rw [← hdveq]
        exact List.mem_cons_self dv rest
      · rw [if_neg hdv] at h
        exact absurd h (by simp)

/-- An element of the list makes `lastValFor` for its directive non-empty. -/
theorem lastValFor_ne_none_of_mem (d : Dir) (l : List (Dir × Str)) (v : Str)
    (h : (d, v) ∈ l) : lastValFor d l ≠ none := by
  induction l with
  | nil => simp at h
  | cons dv rest ih =>
    rw [lastValFor_cons]
    rcases List.mem_cons.1 h with he | hm
    · cases hr : lastValFor d rest with
      | some w => simp
      | none =>
        have h1 : dv.1 = d := by rw [← he]
        simp [h1]
    · have hne := ih hm
      cases hr : lastValFor d rest with
      | some w => simp
      | none => exact absurd hr hne

/-- A directive with a recorded entry is present. -/
theorem present_of_lastValFor (P : CSP) (d : Dir)
    (h : lastValFor d (entryList P) ≠ none) : dirPresent d P := by
  rw [lastValFor_entryList P d] at h
  cases d <;>
    (by_contra hnp; simp only [dirPresent] at hnp; exact h (if_neg hnp))

/-- A present directive has a recorded entry. -/
theorem lastValFor_of_present (P : CSP) (d : Dir) (h : dirPresent d P) :
    lastValFor d (entryList P) ≠ none := by
  rw [lastValFor_entryList P d]
  cases d <;> (simp only [dirPresent] at h; rw [if_pos h]; simp)

/-- C5 (amended): for a clean policy the encoded text has a `;`-segment
keyed by a directive's name exactly when that directive is present; for any
policy with zero present directives the encoding is the empty string with a
nil error; and MarshalText never returns a non-nil error. -/
theorem c5_presence (P : CSP) :
    (cleanCSP P = true →
      ∀ d : Dir,
        (∃ s ∈ splitOn ';' P.marshalStr, segKey s = some (dirName d)) ↔
          dirPresent d P) ∧
    ((∀ d : Dir, ¬dirPresent d P) → P.marshalText = Except.ok []) ∧
    (∃ t, P.marshalText = Except.ok t) := by
  refine ⟨?_, ?_, ⟨P.marshalStr, rfl⟩⟩
  · intro h d
    constructor
    · rintro ⟨s, hs, hkey⟩
      rw [splitOn_marshal P h] at hs
      cases hE : P.policiesList with
      | nil =>
        rw [hE] at hs
        simp at hs
        subst hs
        simp [segKey, segKV_nil] at hkey
      | cons e rest =>
        rw [hE] at hs
        have hsx : ∃ x ∈ P.policiesList, segKey s = segKey x := by
          rcases List.mem_cons.1 hs with he | hm
          · exact ⟨e, by rw [hE]; simp, by rw [he]⟩
          · obtain ⟨x, hx, hxe⟩ := List.mem_map.1 hm
            refine ⟨x, by rw [hE]; simp [hx], ?_⟩
            rw [← hxe]
            unfold segKey
            rw [segKV_cons_space]
        obtain ⟨x, hx, hxkey⟩ := hsx
        rw [policiesList_eq_map] at hx
        obtain ⟨dv, hdv, rfl⟩ := List.mem_map.1 hx
        have hvclean := entryList_vals_clean P h dv hdv
        have hxk : segKey (entryText dv) = some (dirName dv.1) := by
          unfold segKey entryText
          rw [segKV_entry_dir dv.1 dv.2 hvclean]
          rfl
        rw [hxkey, hxk] at hkey
        have hnm : dirName dv.1 = dirName d := Option.some.inj hkey
        have hdd : dv.1 = d := dirName_inj _ _ hnm
        subst hdd
        exact present_of_lastValFor P dv.1
          (lastValFor_ne_none_of_mem dv.1 _ dv.2 hdv)
    · intro hp
      have hne := lastValFor_of_present P d hp
      obtain ⟨v, hv⟩ : ∃ v, lastValFor d (entryList P) = some v := by
        cases hlv : lastValFor d (entryList P) with
        | none => exact absurd hlv hne
        | some v => exact ⟨v, rfl⟩
      have hmem := lastValFor_mem d _ v hv
      have hvclean := entryList_vals_clean P h (d, v) hmem
      have hkey : segKey (entryText (d, v)) = some (dirName d) := by
        unfold segKey entryText
        rw [segKV_entry_dir d v hvclean]
        rfl
      have hx : entryText (d, v) ∈ P.policiesList := by
        rw [policiesList_eq_map]
        exact List.mem_map_of_mem _ hmem
      rw [splitOn_marshal P h]
      cases hE : P.policiesList with
      | nil => rw [hE] at hx; simp at hx
      | cons e rest =>
        rw [hE] at hx
        rcases List.mem_cons.1 hx with he | hm
        · exact ⟨e, by simp, by rw [← he]; exact hkey⟩
        · refine ⟨' ' :: entryText (d, v), ?_, ?_⟩
          · exact List.mem_cons_of_mem e (List.mem_map_of_mem _ hm)
          · unfold segKey
            rw [segKV_cons_space]
            exact hkey
  · intro hnp
    have m1 : ¬(P.defaultSrc.length ≠ 0) := hnp Dir.defaultD
    have m2 : ¬(P.childSrc.length ≠ 0) := hnp Dir.childD
    have m3 : ¬(P.connectSrc.length ≠ 0) := hnp Dir.connectD
    have m4 : ¬(P.fontSrc.length ≠ 0) := hnp Dir.fontD
    have m5 : ¬(P.frameSrc.length ≠ 0) := hnp Dir.frameD
    have m6 : ¬(P.imgSrc.length ≠ 0) := hnp Dir.imgD
    have m7 : ¬(P.manifestSrc.length ≠ 0) := hnp Dir.manifestD
    have m8 : ¬(P.mediaSrc.length ≠ 0) := hnp Dir.mediaD
    have m9 : ¬(P.objectSrc.length ≠ 0) := hnp Dir.objectD
    have m10 : ¬(P.scriptSrc.length ≠ 0) := hnp Dir.scriptD
    have m11 : ¬(P.styleSrc.length ≠ 0) := hnp Dir.styleD
    have m12 : ¬(P.workerSrc.length ≠ 0) := hnp Dir.workerD
    have m13 : ¬(P.reportTo ≠ []) := hnp Dir.reportToD
    have hE : P.policiesList = [] := by
      unfold CSP.policiesList
      rw [if_neg m1, if_neg m2, if_neg m3, if_neg m4, if_neg m5, if_neg m6,
        if_neg m7, if_neg m8, if_neg m9, if_neg m10, if_neg m11, if_neg m12,
        if_neg m13]
      rfl
    unfold CSP.marshalText CSP.marshalStr
    rw [hE]
    rfl

/-- C5 counterexample: a policy whose only token is the literal string
`img-src` yields an encoding that contains the directive name `img-src`
even though the `ImgSrc` slot is absent, refuting the containment/presence
equivalence read over raw text. -/
theorem c5_counterexample :
    occursIn imgSrcName
        (CSP.marshalStr { defaultSrc := ["img-src".data] }) = true ∧
    ({ defaultSrc := ["img-src".data] } : CSP).imgSrc = [] := by decide

/-- C5 witness: the default policy is clean and mentions `img-src` as a
segment key exactly as presence demands; the zero policy encodes to the
empty string with nil error; encoding never errors. -/
theorem c5_witness :
    cleanCSP defaultCSP = true ∧
    ((∃ s ∈ splitOn ';' defaultCSP.marshalStr,
        segKey s = some (dirName Dir.imgD)) ↔
      dirPresent Dir.imgD defaultCSP) ∧
    (∀ d : Dir, ¬dirPresent d emptyCSP) ∧
    emptyCSP.marshalText = Except.ok [] ∧
    (∃ t, defaultCSP.marshalText = Except.ok t) :=
  ⟨by decide, (c5_presence defaultCSP).1 (by decide) Dir.imgD, by decide,
    (c5_presence emptyCSP).2.1 (by decide), (c5_presence defaultCSP).2.2⟩

/- Report-handler claims. -/

/-- C2: the handler's protocol: wrong content type gives the error hook a
415 without reading the body or invoking the sink; a body-read failure or
an undecodable envelope gives 400 without invoking the sink; a failing sink
gives 500; in every failing case the hook runs exactly once and the 200
response is never written. -/
theorem c2_report_handler (sink : Report → Option Str) (req : Request) :
    (req.contentType ≠ reportContentTypeS →
      routeHandler sink req =
        { errorCalls := [(415, unsupportedTypeMsg)], sinkCalls := [],
          wroteOK := false, bodyRead := false }) ∧
    (req.contentType = reportContentTypeS →
      ∀ e, req.body = Except.error e →
        routeHandler sink req =
          { errorCalls := [(400, e)], sinkCalls := [], wroteOK := false,
            bodyRead := true }) ∧
    (req.contentType = reportContentTypeS →
      ∀ b e, req.body = Except.ok b →
        jsonUnmarshalEnvelope b = Except.error e →
        routeHandler sink req =
          { errorCalls := [(400, e)], sinkCalls := [], wroteOK := false,
            bodyRead := true }) ∧
    (req.contentType = reportContentTypeS →
      ∀ b rep e, req.body = Except.ok b →
        jsonUnmarshalEnvelope b = Except.ok rep → sink rep = some e →
        routeHandler sink req =
          { errorCalls := [(500, e)], sinkCalls := [rep], wroteOK := false,
            bodyRead := true }) := by
  refine ⟨?_, ?_, ?_, ?_⟩
  · intro hct
    unfold routeHandler
    rw [if_pos hct]
  · intro hct e he
    unfold routeHandler
    rw [if_neg (not_ne_iff.mpr hct), he]
  · intro hct b e hb henv
    unfold routeHandler
    rw [if_neg (not_ne_iff.mpr hct), hb]
    show (match jsonUnmarshalEnvelope b with
      | Except.error e =>
        { errorCalls := [(400, e)], sinkCalls := [], wroteOK := false,
          bodyRead := true }
      | Except.ok rep =>
        match sink rep with
        | some e =>
          { errorCalls := [(500, e)], sinkCalls := [rep], wroteOK := false,
            bodyRead := true }
        | none =>
          { errorCalls := [], sinkCalls := [rep], wroteOK := true,
            bodyRead := true } : HResult) = _
    rw [henv]
  · intro hct b rep e hb henv hsink
    unfold routeHandler
    rw [if_neg (not_ne_iff.mpr hct), hb]
    show (match jsonUnmarshalEnvelope b with
      | Except.error e =>
        { errorCalls := [(400, e)], sinkCalls := [], wroteOK := false,
          bodyRead := true }
      | Except.ok rep =>
        match sink rep with
        | some e =>
          { errorCalls := [(500, e)], sinkCalls := [rep], wroteOK := false,
            bodyRead := true }
        | none =>
          { errorCalls := [], sinkCalls := [rep], wroteOK := true,
            bodyRead := true } : HResult) = _
    rw [henv]
    show (match sink rep with
      | some e =>
        { errorCalls := [(500, e)], sinkCalls := [rep], wroteOK := false,
          bodyRead := true }
      | none =>
        { errorCalls := [], sinkCalls := [rep], wroteOK := true,
          bodyRead := true } : HResult) = _
    rw [hsink]

/-- C2 witness: each of the four failure branches evaluated on a concrete
request. -/
theorem c2_witness :
    routeHandler (fun _ => none) ⟨"text/plain".data, Except.ok []⟩ =
      { errorCalls := [(415, unsupportedTypeMsg)], sinkCalls := [],
        wroteOK := false, bodyRead := false } ∧
    routeHandler (fun _ => none)
        ⟨reportContentTypeS, Except.error "read failed".data⟩ =
      { errorCalls := [(400, "read failed".data)], sinkCalls := [],
        wroteOK := false, bodyRead := true } ∧
    routeHandler (fun _ => none)
        ⟨reportContentTypeS, Except.ok "not json".data⟩ =
      { errorCalls := [(400, "invalid json".data)], sinkCalls := [],
        wroteOK := false, bodyRead := true } ∧
    routeHandler (fun _ => some "sink failure".data)
        ⟨reportContentTypeS, Except.ok "\x7b\x7d".data⟩ =
      { errorCalls := [(500, "sink failure".data)], sinkCalls := [{}],
        wroteOK := false, bodyRead := true } :=
  ⟨(c2_report_handler (fun _ => none) _).1 (by decide),
    (c2_report_handler (fun _ => none) _).2.1 rfl "read failed".data rfl,
    (c2_report_handler (fun _ => none) _).2.2.1 rfl "not json".data
      "invalid json".data rfl rfl,
    (c2_report_handler (fun _ => some "sink failure".data) _).2.2.2 rfl
      "\x7b\x7d".data {} "sink failure".data rfl rfl rfl⟩

/-- C6: the example envelope with the correct content type delivers exactly
the listed field values to the sink, once, and the response is the empty
200. -/
theorem c6_happy_path :
    routeHandler (fun _ => none) ⟨reportContentTypeS, Except.ok c6Body⟩ =
      { errorCalls := [], sinkCalls := [c6Report], wroteOK := true,
        bodyRead := true } := by
  rfl

/-- C9: a valid JSON object body with no key matching `csp-report` (Go
matches struct keys exactly or ASCII case-insensitively) is not a 400: the
envelope decodes to the zero report, the sink receives it once, and — when
the sink accepts it — the handler responds 200. -/
theorem c9_missing_envelope_key (sink : Report → Option Str) (req : Request)
    (b : Str) (kvs : List (Str × Json))
    (h1 : req.contentType = reportContentTypeS)
    (h2 : req.body = Except.ok b)
    (h3 : parseJson b = some (Json.objJ kvs))
    (h4 : kvs.all (fun kv => !keyMatches kv.1 envKeyTag) = true)
    (h5 : sink {} = none) :
    routeHandler sink req =
      { errorCalls := [], sinkCalls := [{}], wroteOK := true,
        bodyRead := true } := by
  have hskip : ∀ (l : List (Str × Json)) (r : Report),
      l.all (fun kv => !keyMatches kv.1 envKeyTag) = true →
      List.foldlM
        (fun acc kv =>
          if keyMatches kv.1 envKeyTag then decodeReportInto acc kv.2
          else Except.ok acc) r l = Except.ok r := by
    intro l
    induction l with
    | nil => intro r _; rfl
    | cons kv rest ih =>
      intro r hall
      simp only [List.all_cons, Bool.and_eq_true, Bool.not_eq_true'] at hall
      obtain ⟨hkv, hrest⟩ := hall
      have hstep : List.foldlM
          (fun acc kv =>
            if keyMatches kv.1 envKeyTag then decodeReportInto acc kv.2
            else Except.ok acc) r (kv :: rest) =
          (if keyMatches kv.1 envKeyTag then decodeReportInto r kv.2
            else Except.ok r) >>= fun r' =>
            List.foldlM
              (fun acc kv =>
                if keyMatches kv.1 envKeyTag then decodeReportInto acc kv.2
                else Except.ok acc) r' rest := rfl
      rw [hstep, if_neg (by simp [hkv])]
      show List.foldlM _ r rest = Except.ok r
      exact ih r hrest
  have henv : jsonUnmarshalEnvelope b = Except.ok {} := by
    unfold jsonUnmarshalEnvelope
    rw [h3]
    unfold decodeEnvelope
    exact hskip kvs {} h4
  unfold routeHandler
  rw [if_neg (not_ne_iff.mpr h1), h2]
  show (match jsonUnmarshalEnvelope b with
    | Except.error e =>
      { errorCalls := [(400, e)], sinkCalls := [], wroteOK := false,
        bodyRead := true }
    | Except.ok rep =>
      match sink rep with
      | some e =>
        { errorCalls := [(500, e)], sinkCalls := [rep], wroteOK := false,
          bodyRead := true }
      | none =>
        { errorCalls := [], sinkCalls := [rep], wroteOK := true,
          bodyRead := true } : HResult) = _
  rw [henv]
  show (match sink ({} : Report) with
    | some e =>
      { errorCalls := [(500, e)], sinkCalls := [({} : Report)],
        wroteOK := false, bodyRead := true }
    | none =>
      { errorCalls := [], sinkCalls := [({} : Report)], wroteOK := true,
        bodyRead := true } : HResult) = _
  rw [h5]

/-- C9 witness: the body is the JSON object with the single key `a`, which
does not match `csp-report`; the sink receives the zero report and the
handler answers 200. -/
theorem c9_witness :
    parseJson "\x7b\"a\": 1\x7d".data =
      some (Json.objJ [("a".data, Json.numJ "1".data)]) ∧
    routeHandler (fun _ => none)
        ⟨reportContentTypeS, Except.ok "\x7b\"a\": 1\x7d".data⟩ =
      { errorCalls := [], sinkCalls := [{}], wroteOK := true,
        bodyRead := true } :=
  ⟨rfl,
    c9_missing_envelope_key (fun _ => none) _ "\x7b\"a\": 1\x7d".data
      [("a".data, Json.numJ "1".data)] rfl rfl rfl (by decide) rfl⟩
